import Mathlib

/-!
Verification of the model-versioning helper of the `asarekings/mlops-platform`
repository (class `ModelVersioning` in `src/api/main.py`; the copy in
`src/versioning/model_versioning.py` agrees on the operations it has).

The embedding models:
* byte contents of files as `List Nat` (each entry `< 256` in well-formed
  states; the hash pads with `% 256` arithmetic where it matters);
* SHA-256 (`hashlib.sha256`) as a full executable implementation over byte
  lists; chunked `update` calls over 4096-byte chunks of a file are
  semantically the digest of the whole content, which is what
  `calculate_file_hash` computes;
* the filesystem as an association list of file paths to file data plus a
  list of existing directories, with `os.path.exists`, `os.listdir`,
  `os.makedirs(exist_ok=True)`, `shutil.copy2`, `shutil.rmtree` analogues;
* `datetime.utcnow()` results as explicit `DateTime` arguments (the code
  samples the clock twice inside `create_version`, hence two parameters);
* `metadata.json` contents structurally (a JSON object of the shapes the
  code reads/writes) rather than as serialized text; a file that is raw
  bytes fails `json.load` exactly as non-JSON text does.
-/

namespace MLOps

/-! ## SHA-256 (`hashlib.sha256`) -/

/-- Truncation of a natural number to 32 bits. -/
def w32 (n : Nat) : Nat := n % 4294967296

/-- Addition modulo 2^32. -/
def add32 (a b : Nat) : Nat := w32 (a + b)

/-- Right rotation of a 32-bit word by `n` bits. -/
def rotr (n x : Nat) : Nat := w32 ((x >>> n) ||| (x <<< (32 - n)))

/-- Big sigma-0 of the SHA-256 compression function. -/
def bsig0 (x : Nat) : Nat := (rotr 2 x) ^^^ (rotr 13 x) ^^^ (rotr 22 x)

/-- Big sigma-1 of the SHA-256 compression function. -/
def bsig1 (x : Nat) : Nat := (rotr 6 x) ^^^ (rotr 11 x) ^^^ (rotr 25 x)

/-- Small sigma-0 of the SHA-256 message schedule. -/
def ssig0 (x : Nat) : Nat := (rotr 7 x) ^^^ (rotr 18 x) ^^^ (x >>> 3)

/-- Small sigma-1 of the SHA-256 message schedule. -/
def ssig1 (x : Nat) : Nat := (rotr 17 x) ^^^ (rotr 19 x) ^^^ (x >>> 10)

/-- SHA-256 choice function (`¬x` taken within 32 bits). -/
def chf (x y z : Nat) : Nat := (x &&& y) ^^^ ((x ^^^ 4294967295) &&& z)

/-- SHA-256 majority function. -/
def majf (x y z : Nat) : Nat := (x &&& y) ^^^ (x &&& z) ^^^ (y &&& z)

/-- The 64 SHA-256 round constants. -/
def sha256K : List Nat :=
  [1116352408, 1899447441, 3049323471, 3921009573, 961987163,
   1508970993, 2453635748, 2870763221, 3624381080, 310598401,
   607225278, 1426881987, 1925078388, 2162078206, 2614888103,
   3248222580, 3835390401, 4022224774, 264347078, 604807628,
   770255983, 1249150122, 1555081692, 1996064986, 2554220882,
   2821834349, 2952996808, 3210313671, 3336571891, 3584528711,
   113926993, 338241895, 666307205, 773529912, 1294757372,
   1396182291, 1695183700, 1986661051, 2177026350, 2456956037,
   2730485921, 2820302411, 3259730800, 3345764771, 3516065817,
   3600352804, 4094571909, 275423344, 430227734, 506948616,
   659060556, 883997877, 958139571, 1322822218, 1537002063,
   1747873779, 1955562222, 2024104815, 2227730452, 2361852424,
   2428436474, 2756734187, 3204031479, 3329325298]

/-- The eight working words of the SHA-256 state. -/
structure Hash8 where
  a : Nat
  b : Nat
  c : Nat
  d : Nat
  e : Nat
  f : Nat
  g : Nat
  h : Nat
deriving Repr, DecidableEq

/-- SHA-256 initial hash value. -/
def sha256H0 : Hash8 :=
  ⟨1779033703, 3144134277, 1013904242, 2773480762,
   1359893119, 2600822924, 528734635, 1541459225⟩

/-- Big-endian 8-byte encoding of a natural number (the message bit length). -/
def be64 (n : Nat) : List Nat :=
  [w8 (n >>> 56), w8 (n >>> 48), w8 (n >>> 40), w8 (n >>> 32),
   w8 (n >>> 24), w8 (n >>> 16), w8 (n >>> 8), w8 n]
where w8 (m : Nat) : Nat := m % 256

/-- SHA-256 padding: append `0x80`, zeros to 56 mod 64, then the 64-bit
big-endian bit length. -/
def padMessage (msg : List Nat) : List Nat :=
  msg ++ [0x80] ++ List.replicate ((119 - msg.length % 64) % 64) 0
      ++ be64 (8 * msg.length)

/-- Split a byte list into its 64-byte blocks (padded input length is always
a multiple of 64). -/
def toBlocks (l : List Nat) : List (List Nat) :=
  (List.range (l.length / 64)).map fun i => (l.drop (64 * i)).take 64

/-- The sixteen 32-bit big-endian words of one 64-byte block. -/
def blockWords (b : List Nat) : List Nat :=
  (List.range 16).map fun i =>
    (b.getD (4 * i) 0) * 16777216 + (b.getD (4 * i + 1) 0) * 65536 +
      (b.getD (4 * i + 2) 0) * 256 + b.getD (4 * i + 3) 0

/-- Extend the sixteen block words to the 64-entry message schedule. -/
def extendWords (ws : List Nat) : List Nat :=
  (List.range 48).foldl
    (fun acc i =>
      let t := i + 16
      acc ++ [add32 (add32 (ssig1 (acc.getD (t - 2) 0)) (acc.getD (t - 7) 0))
                (add32 (ssig0 (acc.getD (t - 15) 0)) (acc.getD (t - 16) 0))])
    ws

/-- One round of the SHA-256 compression function. -/
def sha256Round (st : Hash8) (k w : Nat) : Hash8 :=
  let t1 := add32 st.h (add32 (bsig1 st.e) (add32 (chf st.e st.f st.g) (add32 k w)))
  let t2 := add32 (bsig0 st.a) (majf st.a st.b st.c)
  ⟨add32 t1 t2, st.a, st.b, st.c, add32 st.d t1, st.e, st.f, st.g⟩

/-- Process one 64-byte block. -/
def processBlock (st : Hash8) (block : List Nat) : Hash8 :=
  let ws := extendWords (blockWords block)
  let r := (sha256K.zip ws).foldl (fun s kw => sha256Round s kw.1 kw.2) st
  ⟨add32 st.a r.a, add32 st.b r.b, add32 st.c r.c, add32 st.d r.d,
   add32 st.e r.e, add32 st.f r.f, add32 st.g r.g, add32 st.h r.h⟩

/-- SHA-256 of a byte list, as the final eight-word state. -/
def sha256 (msg : List Nat) : Hash8 :=
  (toBlocks (padMessage msg)).foldl processBlock sha256H0

/-- Lowercase hexadecimal digit for `n % 16`. -/
def hexDigit (n : Nat) : Char :=
  match n % 16 with
  | 0 => '0' | 1 => '1' | 2 => '2' | 3 => '3'
  | 4 => '4' | 5 => '5' | 6 => '6' | 7 => '7'
  | 8 => '8' | 9 => '9' | 10 => 'a' | 11 => 'b'
  | 12 => 'c' | 13 => 'd' | 14 => 'e' | _ => 'f'

/-- Eight-character lowercase hex rendering of a 32-bit word. -/
def word32hex (x : Nat) : String :=
  String.mk [hexDigit (x >>> 28), hexDigit (x >>> 24), hexDigit (x >>> 20),
    hexDigit (x >>> 16), hexDigit (x >>> 12), hexDigit (x >>> 8),
    hexDigit (x >>> 4), hexDigit x]

/-- Model of `hashlib.sha256(...).hexdigest()`: the 64-character lowercase hex digest. -/
def sha256hex (msg : List Nat) : String :=
  let st := sha256 msg
  word32hex st.a ++ word32hex st.b ++ word32hex st.c ++ word32hex st.d ++
    word32hex st.e ++ word32hex st.f ++ word32hex st.g ++ word32hex st.h

/-! ## Timestamps (`datetime.utcnow()` results, passed in explicitly) -/

/-- A UTC timestamp as produced by `datetime.utcnow()`.  Python guarantees
`1 ≤ year ≤ 9999`, `1 ≤ month ≤ 12`, `1 ≤ day ≤ 31`, `hour < 24`,
`minute, second < 60`, `microsecond < 10^6`; the formatting below agrees
with `strftime`/`isoformat` on that range. -/
structure DateTime where
  year : Nat
  month : Nat
  day : Nat
  hour : Nat
  minute : Nat
  second : Nat
  microsecond : Nat
deriving Repr, DecidableEq

/-- Decimal digit character of `n % 10`. -/
def digitChar (n : Nat) : Char :=
  match n % 10 with
  | 0 => '0' | 1 => '1' | 2 => '2' | 3 => '3' | 4 => '4'
  | 5 => '5' | 6 => '6' | 7 => '7' | 8 => '8' | _ => '9'

/-- Two-digit zero-padded decimal rendering (for values `< 100`). -/
def pad2 (n : Nat) : String := String.mk [digitChar (n / 10), digitChar n]

/-- Four-digit zero-padded decimal rendering (for values `< 10000`). -/
def pad4 (n : Nat) : String :=
  String.mk [digitChar (n / 1000), digitChar (n / 100), digitChar (n / 10), digitChar n]

/-- Six-digit zero-padded decimal rendering (for values `< 10^6`). -/
def pad6 (n : Nat) : String :=
  String.mk [digitChar (n / 100000), digitChar (n / 10000), digitChar (n / 1000),
    digitChar (n / 100), digitChar (n / 10), digitChar n]

/-- Model of `strftime("%Y%m%d_%H%M%S")`. -/
def DateTime.compact (t : DateTime) : String :=
  pad4 t.year ++ pad2 t.month ++ pad2 t.day ++ "_" ++
    pad2 t.hour ++ pad2 t.minute ++ pad2 t.second

/-- Model of `datetime.isoformat()` (microseconds suffix omitted when zero, as in
Python). -/
def DateTime.iso (t : DateTime) : String :=
  pad4 t.year ++ "-" ++ pad2 t.month ++ "-" ++ pad2 t.day ++ "T" ++
    pad2 t.hour ++ ":" ++ pad2 t.minute ++ ":" ++ pad2 t.second ++
    (if t.microsecond = 0 then "" else "." ++ pad6 t.microsecond)

/-! ## Metadata values (the JSON shapes the code reads and writes) -/

/-- A JSON value of the shapes occurring in a version's `metadata.json`:
strings, non-negative integers, and the caller-supplied flat mapping. -/
inductive MetaVal where
  | mstr (s : String)
  | mnat (n : Nat)
  | mdict (kvs : List (String × String))
deriving Repr, DecidableEq

/-- A JSON object: an ordered association list with distinct keys
(Python dicts preserve insertion order; `lookup` takes the first match). -/
abbrev MetaObj := List (String × MetaVal)

/-- Contents of a file: raw bytes, or a JSON document (`json.load` succeeds
exactly on the latter; raw bytes model non-JSON text, which raises
`JSONDecodeError`). -/
inductive FileData where
  | bytes (bs : List Nat)
  | json (m : MetaObj)
deriving Repr, DecidableEq

/-- Quote a string as a JSON literal (escaping not modelled; only used to
give JSON files a byte-level serialization for hashing/size, which no
operation of the claims applies to a JSON file). -/
def jquote (s : String) : String := "\"" ++ s ++ "\""

/-- Serialize a metadata value (see `jquote` on fidelity). -/
def serializeMetaVal : MetaVal → String
  | .mstr s => jquote s
  | .mnat n => toString n
  | .mdict kvs =>
      "\x7b" ++ String.intercalate ", "
        (kvs.map fun kv => jquote kv.1 ++ ": " ++ jquote kv.2) ++ "\x7d"

/-- Serialize a metadata object (see `jquote` on fidelity). -/
def serializeMeta (m : MetaObj) : String :=
  "\x7b" ++ String.intercalate ", "
    (m.map fun kv => jquote kv.1 ++ ": " ++ serializeMetaVal kv.2) ++ "\x7d"

/-- The byte content of a file as read by `open(..., "rb")`. -/
def FileData.asBytes : FileData → List Nat
  | .bytes bs => bs
  | .json m => (serializeMeta m).data.map Char.toNat

/-! ## Filesystem model -/

/-- A filesystem path, as its list of components relative to the process
working directory (`os.path.join` concatenates components). -/
abbrev Path := List String

/-- Filesystem state: regular files (path to content, first binding wins)
and the set of existing directories. -/
structure FS where
  files : List (Path × FileData)
  dirs : List Path
deriving Repr, DecidableEq

/-- Content of the regular file at `p`, if one exists. -/
def FS.lookupFile (fs : FS) (p : Path) : Option FileData :=
  fs.files.lookup p

/-- Is there a regular file at `p`? -/
def FS.isFile (fs : FS) (p : Path) : Bool := (fs.lookupFile p).isSome

/-- Is there a directory at `p`? -/
def FS.isDir (fs : FS) (p : Path) : Bool := fs.dirs.contains p

/-- Model of `os.path.exists`. -/
def FS.pathExists (fs : FS) (p : Path) : Bool := fs.isFile p || fs.isDir p

/-- Errors surfaced as Python exceptions or error returns. -/
inductive Err where
  | notFound          -- FileNotFoundError
  | valueError        -- ValueError
  | keyError          -- KeyError
  | typeError         -- TypeError
  | jsonDecodeError   -- json.JSONDecodeError
  | notADirectory     -- NotADirectoryError
  | isADirectory      -- IsADirectoryError
  | fileExists        -- FileExistsError
  | sameFile          -- shutil.SameFileError
deriving Repr, DecidableEq

/-- All non-empty proper-or-improper ancestor paths of `p`, shortest first. -/
def ancestors (p : Path) : List Path :=
  (List.range p.length).map fun i => p.take (i + 1)

/-- State change of a successful `os.makedirs(p, exist_ok=True)`: add `p`
and its missing ancestors to the directory set. -/
def FS.mkdirsRaw (fs : FS) (p : Path) : FS :=
  { fs with dirs := fs.dirs ++ (ancestors p).filter (fun q => !(fs.dirs.contains q)) }

/-- Model of `os.makedirs(p, exist_ok=True)`.  Walking the ancestor chain
shortest-first (as the recursive implementation does), the first component
occupied by a regular file raises: `NotADirectoryError` for a proper
ancestor, `FileExistsError` for `p` itself (`exist_ok` only tolerates an
existing *directory*).  Otherwise the missing directories are created. -/
def FS.makedirs (fs : FS) (p : Path) : Except Err FS :=
  match (ancestors p).find? (fun a => fs.isFile a) with
  | some a => if a = p then .error .fileExists else .error .notADirectory
  | none => .ok (fs.mkdirsRaw p)

/-- State change of a successful write: create or overwrite the regular
file at `p`. -/
def FS.writeFileRaw (fs : FS) (p : Path) (d : FileData) : FS :=
  { fs with files := fs.files.filter (fun f => !(f.1 == p)) ++ [(p, d)] }

/-- Model of opening `p` for writing (`open(p, "w"/"wb")`, the destination
side of `shutil.copy2`): raises `IsADirectoryError` when a directory sits
at `p`, `NotADirectoryError` when the parent component is a regular file,
and `FileNotFoundError` when the parent directory does not exist. -/
def FS.writeFile (fs : FS) (p : Path) (d : FileData) : Except Err FS :=
  if fs.isDir p then .error .isADirectory
  else if fs.isDir p.dropLast then .ok (fs.writeFileRaw p d)
  else if fs.isFile p.dropLast then .error .notADirectory
  else .error .notFound

/-- The name of `q` when `q` is an immediate child path of `p`. -/
def childOf (p q : Path) : Option String :=
  if q.length == p.length + 1 && q.take p.length == p then q.getLast? else none

/-- Model of `os.listdir p`: names of immediate children (order is unspecified by
the OS; this model fixes the order induced by the state representation). -/
def FS.listdir (fs : FS) (p : Path) : List String :=
  ((fs.dirs.filterMap (childOf p)) ++ fs.files.filterMap (fun f => childOf p f.1)).dedup

/-- Model of `os.listdir` with its failure modes on non-directories. -/
def FS.listdirE (fs : FS) (p : Path) : Except Err (List String) :=
  if fs.isDir p then .ok (fs.listdir p)
  else if fs.isFile p then .error .notADirectory
  else .error .notFound

/-- Is `q` equal to or strictly below the path `p`? -/
def underPath (p q : Path) : Bool := q.take p.length == p

/-- Model of `shutil.rmtree p`: remove the directory `p` and everything below it. -/
def FS.rmtree (fs : FS) (p : Path) : FS :=
  { files := fs.files.filter fun f => !(underPath p f.1),
    dirs := fs.dirs.filter fun q => !(underPath p q) }

/-- The file entries at or below `p`, in state order. -/
def FS.filesUnder (fs : FS) (p : Path) : List (Path × FileData) :=
  fs.files.filter fun f => underPath p f.1

/-! ## The `ModelVersioning` class (`src/api/main.py`) -/

/-- The store root `self.versions_dir`. -/
def versionsRoot : String := "model_versions"

/-- The version-store directory of a model. -/
def modelRootDir (model_name : String) : Path := [versionsRoot, model_name]

/-- The directory of one version. -/
def versionDir (model_name version_id : String) : Path :=
  [versionsRoot, model_name, version_id]

/-- The `metadata.json` path of one version. -/
def metadataPath (model_name version_id : String) : Path :=
  versionDir model_name version_id ++ ["metadata.json"]

/-- Model of `os.path.join("models", f"{model_name}_model.pkl")`: the active artifact
written by rollback. -/
def activeModelPath (model_name : String) : Path :=
  ["models", model_name ++ "_model.pkl"]

/-- Model of `ModelVersioning.calculate_file_hash`: SHA-256 hex digest of the whole
file content (the 4096-byte chunked `update` loop hashes the concatenation
of the chunks, i.e. the whole content). -/
def calculate_file_hash (fs : FS) (p : Path) : Except Err String :=
  match fs.lookupFile p with
  | some d => .ok (sha256hex d.asBytes)
  | none => if fs.isDir p then .error .isADirectory else .error .notFound

/-- Model of `ModelVersioning.generate_version_id`; `tVer` is the `utcnow()` sample
taken inside this method. -/
def generate_version_id (fs : FS) (tVer : DateTime) (model_file : Path) :
    Except Err String :=
  (calculate_file_hash fs model_file).map fun h =>
    "v" ++ tVer.compact ++ "_" ++ h.take 8

/-- Model of `os.path.getsize` on a regular file. -/
def getsize (fs : FS) (p : Path) : Except Err Nat :=
  match fs.lookupFile p with
  | some d => .ok d.asBytes.length
  | none => if fs.isDir p then .error .isADirectory else .error .notFound

/-- Model of `ModelVersioning.create_version`.  `tVer` and `tMeta` are the two
`utcnow()` samples the method takes (version id, then `created_at`).  The
returned state is the filesystem after the call, also on the error paths
(the state mutated so far at the point the exception is raised).
`shutil.copy2(model_file, version_dir)` copies to `version_dir/basename`:
it raises `SameFileError` when the source path coincides with the copy
destination, and its destination `open` raises as `FS.writeFile` does. -/
def create_version (fs : FS) (tVer tMeta : DateTime) (model_name : String)
    (model_file : Path) (metadata : List (String × String)) :
    FS × Except Err String :=
  if fs.pathExists model_file then
    match generate_version_id fs tVer model_file with
    | .error e => (fs, .error e)
    | .ok version =>
      let vdir := versionDir model_name version
      match fs.makedirs vdir with
      | .error e => (fs, .error e)
      | .ok fs1 =>
        -- shutil.copy2(model_file, version_dir)
        match fs1.lookupFile model_file with
        | none => (fs1, .error .isADirectory)
        | some d =>
          if vdir ++ [model_file.getLastD ""] = model_file then
            (fs1, .error .sameFile)
          else
            match fs1.writeFile (vdir ++ [model_file.getLastD ""]) d with
            | .error e => (fs1, .error e)
            | .ok fs2 =>
              match calculate_file_hash fs2 model_file, getsize fs2 model_file with
              | .ok fh, .ok sz =>
                let vm : MetaObj :=
                  [("version", .mstr version), ("model_name", .mstr model_name),
                   ("created_at", .mstr tMeta.iso),
                   ("created_by", .mstr "asarekings"),
                   ("metadata", .mdict metadata), ("file_hash", .mstr fh),
                   ("file_size_bytes", .mnat sz),
                   ("platform", .mstr "Enhanced MLOps Platform")]
                match fs2.writeFile (vdir ++ ["metadata.json"]) (.json vm) with
                | .error e => (fs2, .error e)
                | .ok fs3 => (fs3, .ok version)
              | .error e, _ => (fs2, .error e)
              | .ok _, .error e => (fs2, .error e)
  else (fs, .error .notFound)

/-- Model of `json.load` of the file at `p`. -/
def jsonLoad (fs : FS) (p : Path) : Except Err MetaObj :=
  match fs.lookupFile p with
  | some (.json m) => .ok m
  | some (.bytes _) => .error .jsonDecodeError
  | none => if fs.isDir p then .error .isADirectory else .error .notFound

/-- The loop body of `list_versions`: for each entry of the model root,
load `metadata.json` when it exists, skip the entry otherwise. -/
def collectVersions (fs : FS) (mdir : Path) : List String → Except Err (List MetaObj)
  | [] => .ok []
  | vid :: vids =>
    let mf := mdir ++ [vid, "metadata.json"]
    if fs.pathExists mf then
      match jsonLoad fs mf with
      | .error e => .error e
      | .ok m => (collectVersions fs mdir vids).map fun vs => m :: vs
    else collectVersions fs mdir vids

/-- The sort key `x["created_at"]` (`KeyError` when missing; the code only
ever writes string values, so a non-string is modelled as the `TypeError`
Python raises when such keys get compared). -/
def createdAtString (m : MetaObj) : Except Err String :=
  match m.lookup "created_at" with
  | none => .error .keyError
  | some (.mstr s) => .ok s
  | some _ => .error .typeError

/-- Total variant of the sort key, defined where `createdAtString` succeeds. -/
def keyOf (m : MetaObj) : String :=
  match m.lookup "created_at" with
  | some (.mstr s) => s
  | _ => ""

/-- The key-extraction ("decorate") phase of CPython's `sorted(...)`:
all keys are computed left to right before any comparison, raising at the
first record whose key is missing. -/
def extractKeys : List MetaObj → Except Err (List String)
  | [] => .ok []
  | m :: rest =>
    match createdAtString m with
    | .error e => .error e
    | .ok s => (extractKeys rest).map fun l => s :: l

/-- The relation stating that `a` may be placed before `b` in the stable
descending sort by
`created_at`. -/
def keyGe (a b : MetaObj) : Prop := keyOf b ≤ keyOf a

instance : DecidableRel keyGe := fun a b =>
  inferInstanceAs (Decidable (keyOf b ≤ keyOf a))

instance : IsTotal MetaObj keyGe := ⟨fun a b => le_total (keyOf b) (keyOf a)⟩

instance : IsTrans MetaObj keyGe := ⟨fun _ _ _ hab hbc => le_trans hbc hab⟩

/-- Model of `sorted(versions, key=lambda x: x["created_at"], reverse=True)`:
a stable descending sort by key.  CPython extracts every key first (raising
there if one is missing), then sorts stably; a stable descending sort is
exactly `insertionSort` by the reflexive ≥ relation `keyGe` on keys. -/
def sortVersions (vs : List MetaObj) : Except Err (List MetaObj) :=
  match extractKeys vs with
  | .error e => .error e
  | .ok _ => .ok (List.insertionSort keyGe vs)

/-- Model of `ModelVersioning.list_versions`. -/
def list_versions (fs : FS) (model_name : String) : Except Err (List MetaObj) :=
  let mdir := modelRootDir model_name
  if fs.pathExists mdir then
    match fs.listdirE mdir with
    | .error e => .error e
    | .ok vids =>
      match collectVersions fs mdir vids with
      | .error e => .error e
      | .ok vs => sortVersions vs
  else .ok []

/-- Model of `ModelVersioning.get_latest_version`. -/
def get_latest_version (fs : FS) (model_name : String) :
    Except Err (Option MetaObj) :=
  (list_versions fs model_name).map List.head?

/-- Python `f.endswith(".pkl")`: the last four characters are `.pkl`.
(Core's `String.endsWith` is extensionally the same but uses well-founded
recursion internally and cannot be evaluated by the kernel.) -/
def endsWithPkl (f : String) : Bool := f.data.reverse.take 4 == ['l', 'k', 'p', '.']

/-- Model of `ModelVersioning.rollback_to_version`.  The returned state is the
filesystem after the call, also on error paths (all pre-mutation).  The
destination `open` of `copy2` raises as `FS.writeFile` does - in
particular `FileNotFoundError` when the `models/` directory is absent.
`SameFileError` cannot occur here: the source path has four components
under `model_versions/` while the destination has two under `models/`. -/
def rollback_to_version (fs : FS) (model_name version_id : String) :
    FS × Except Err Bool :=
  let vdir := versionDir model_name version_id
  if fs.pathExists vdir then
    match fs.listdirE vdir with
    | .error e => (fs, .error e)
    | .ok entries =>
      match entries.filter (fun f => endsWithPkl f) with
      | [] => (fs, .ok false)
      | f :: _ =>
        -- copy2 of a directory entry raises IsADirectoryError
        match fs.lookupFile (vdir ++ [f]) with
        | some d =>
          match fs.writeFile (activeModelPath model_name) d with
          | .error e => (fs, .error e)
          | .ok fs2 => (fs2, .ok true)
        | none => (fs, .error .isADirectory)
  else (fs, .error .valueError)

/-- Model of `ModelVersioning.delete_version` (`shutil.rmtree` of a non-directory
raises `NotADirectoryError`). -/
def delete_version (fs : FS) (model_name version_id : String) :
    FS × Except Err Bool :=
  let vdir := versionDir model_name version_id
  if fs.isDir vdir then (fs.rmtree vdir, .ok true)
  else if fs.isFile vdir then (fs, .error .notADirectory)
  else (fs, .ok false)

/-- The values `v1_data`/`v2_data` of `get_version_comparison`: `None` when the
metadata path does not exist, else `json.load` of it. -/
def loadIfExists (fs : FS) (p : Path) : Except Err (Option MetaObj) :=
  if fs.pathExists p then (jsonLoad fs p).map some else .ok none

/-- Python `d[k]` on a dict. -/
def getItem (m : MetaObj) (k : String) : Except Err MetaVal :=
  match m.lookup k with
  | some v => .ok v
  | none => .error .keyError

/-- Python `d.get("file_size_bytes", 0)` used as an operand of `-`
(a non-numeric value raises `TypeError` at the subtraction). -/
def sizeOrZero (m : MetaObj) : Except Err Int :=
  match m.lookup "file_size_bytes" with
  | none => .ok 0
  | some (.mnat n) => .ok (n : Int)
  | some _ => .error .typeError

/-- Python `a > b` on metadata values (strings and ints compare within
their own type; anything else raises `TypeError`). -/
def mvGt (a b : MetaVal) : Except Err Bool :=
  match a, b with
  | .mstr x, .mstr y => .ok (decide (y < x))
  | .mnat x, .mnat y => .ok (decide (y < x))
  | _, _ => .error .typeError

/-- Result of `get_version_comparison`: the `{"error": ...}` dictionary, or
the comparison record (only the non-constant fields that the claims need
are carried; the `version_1`/`version_2` echo blocks repeat inputs and
metadata verbatim). -/
inductive CompareResult where
  | errorResult
  | found (model_name : String) (same_hash : Bool) (size_difference : Int)
      (time_difference : Bool)
deriving Repr, DecidableEq

/-- Model of `ModelVersioning.get_version_comparison`.  Python's `if not v1_data or
not v2_data` also treats an *empty* loaded dict as absent, hence the
`isEmpty` checks.  Field accesses happen in the order of the result
dictionary literal. -/
def get_version_comparison (fs : FS) (model_name version1 version2 : String) :
    Except Err CompareResult :=
  match loadIfExists fs (metadataPath model_name version1) with
  | .error e => .error e
  | .ok od1 =>
    match loadIfExists fs (metadataPath model_name version2) with
    | .error e => .error e
    | .ok od2 =>
      match od1, od2 with
      | some m1, some m2 =>
        if m1.isEmpty || m2.isEmpty then .ok .errorResult
        else
          match getItem m1 "created_at" with
          | .error e => .error e
          | .ok c1 =>
          match getItem m1 "file_hash" with
          | .error e => .error e
          | .ok h1 =>
          match sizeOrZero m1 with
          | .error e => .error e
          | .ok s1 =>
          match getItem m2 "created_at" with
          | .error e => .error e
          | .ok c2 =>
          match getItem m2 "file_hash" with
          | .error e => .error e
          | .ok h2 =>
          match sizeOrZero m2 with
          | .error e => .error e
          | .ok s2 =>
          match mvGt c2 c1 with
          | .error e => .error e
          | .ok td => .ok (.found model_name (h1 == h2) (s2 - s1) td)
      | _, _ => .ok .errorResult

/-! ## Format predicates for version ids -/

/-- Decimal digit character. -/
def isDigitCh (c : Char) : Bool := decide (48 ≤ c.toNat) && decide (c.toNat ≤ 57)

/-- Lowercase hexadecimal digit character. -/
def isLowerHexCh (c : Char) : Bool :=
  isDigitCh c || (decide (97 ≤ c.toNat) && decide (c.toNat ≤ 102))

/-- The `YYYYMMDD_HHMMSS` shape: fifteen characters, all decimal digits
except an underscore at index 8. -/
def compactShape (s : String) : Bool :=
  s.data.length == 15 && (s.data.take 8).all isDigitCh &&
    (s.data.getD 8 ' ' == '_') && (s.data.drop 9).all isDigitCh

/-! ## Basic lemmas about the model -/

theorem digitChar_isDigit (n : Nat) : isDigitCh (digitChar n) = true := by
  unfold digitChar
  split <;> decide

theorem hexDigit_isLowerHex (n : Nat) : isLowerHexCh (hexDigit n) = true := by
  unfold hexDigit
  split <;> decide

theorem word32hex_all_hex (x : Nat) :
    (word32hex x).data.all isLowerHexCh = true := by
  simp [word32hex, hexDigit_isLowerHex]

theorem sha256hex_all_hex (bs : List Nat) :
    (sha256hex bs).data.all isLowerHexCh = true := by
  simp [sha256hex, String.data_append, List.all_append, word32hex_all_hex]

theorem word32hex_length (x : Nat) : (word32hex x).length = 8 := rfl

theorem sha256hex_length (bs : List Nat) : (sha256hex bs).length = 64 := by
  simp [sha256hex, String.length_append, word32hex_length]

theorem compactShape_compact (t : DateTime) : compactShape t.compact = true := by
  simp [DateTime.compact, compactShape, pad4, pad2, String.data_append,
    List.all_append, digitChar_isDigit]

theorem take8_hex_length (bs : List Nat) :
    ((sha256hex bs).take 8).length = 8 := by
  have h64 : (sha256hex bs).data.length = 64 := sha256hex_length bs
  rw [String.take_eq]
  show ((sha256hex bs).data.take 8).length = 8
  rw [List.length_take, h64]
  omega

theorem take8_hex_all_hex (bs : List Nat) :
    ((sha256hex bs).take 8).data.all isLowerHexCh = true := by
  have hall := sha256hex_all_hex bs
  rw [List.all_eq_true] at hall ⊢
  intro c hc
  rw [String.take_eq] at hc
  exact hall c (List.take_subset _ _ hc)

theorem lookup_filter_append {α β : Type} [BEq α] [LawfulBEq α] [DecidableEq α]
    (l : List (α × β)) (p : α) (d : β) (q : α) :
    List.lookup q ((l.filter fun f => !(f.1 == p)) ++ [(p, d)]) =
      if q = p then some d else List.lookup q l := by
  induction l with
  | nil =>
    by_cases h : q = p
    · subst h
      simp [List.lookup]
    · have hb : (q == p) = false := by simp [h]
      simp only [List.filter_nil, List.nil_append, if_neg h]
      rw [List.lookup_cons, hb]
  | cons x xs ih =>
    rcases x with ⟨a, b⟩
    by_cases ha : a = p
    · subst ha
      have hdrop : ((a, b) :: xs).filter (fun f => !(f.1 == a)) =
          xs.filter (fun f => !(f.1 == a)) := by
        simp [List.filter_cons]
      rw [hdrop, ih]
      by_cases hq : q = a
      · rw [if_pos hq, if_pos hq]
      · rw [if_neg hq, if_neg hq]
        have hb : (q == a) = false := by simp [hq]
        simp only [List.lookup_cons, hb]
    · have hkeep : ((a, b) :: xs).filter (fun f => !(f.1 == p)) =
          (a, b) :: xs.filter (fun f => !(f.1 == p)) := by
        simp [List.filter_cons, ha]
      rw [hkeep, List.cons_append]
      simp only [List.lookup_cons]
      by_cases hq : q = a
      · have hb : (q == a) = true := by simp [hq]
        have hqp : q ≠ p := by rw [hq]; exact ha
        rw [hb, if_neg hqp]
      · have hb : (q == a) = false := by simp [hq]
        rw [hb, ih]

theorem lookupFile_writeFileRaw (fs : FS) (p q : Path) (d : FileData) :
    (fs.writeFileRaw p d).lookupFile q =
      if q = p then some d else fs.lookupFile q := by
  simp only [FS.writeFileRaw, FS.lookupFile]
  exact lookup_filter_append fs.files p d q

theorem lookupFile_mkdirsRaw (fs : FS) (p q : Path) :
    (fs.mkdirsRaw p).lookupFile q = fs.lookupFile q := rfl

theorem isFile_mkdirsRaw (fs : FS) (p q : Path) :
    (fs.mkdirsRaw p).isFile q = fs.isFile q := rfl

theorem isFile_writeFileRaw_of_eq (fs : FS) (p : Path) (d : FileData) :
    (fs.writeFileRaw p d).isFile p = true := by
  rw [FS.isFile, lookupFile_writeFileRaw, if_pos rfl]
  rfl

/-- Ancestors of `p` are at most as long as `p`. -/
theorem length_le_of_mem_ancestors {p a : Path} (h : a ∈ ancestors p) :
    a.length ≤ p.length := by
  rw [ancestors, List.mem_map] at h
  obtain ⟨i, _, rfl⟩ := h
  rw [List.length_take]
  omega

/-- A path strictly longer than `p` is not touched by `mkdirsRaw p`. -/
theorem isDir_mkdirsRaw_of_longer (fs : FS) (p q : Path)
    (h : p.length < q.length) :
    (fs.mkdirsRaw p).isDir q = fs.isDir q := by
  have hnotanc : q ∉ (ancestors p).filter fun a => !(fs.dirs.contains a) := by
    intro hmem
    have := length_le_of_mem_ancestors (List.mem_of_mem_filter hmem)
    omega
  rw [FS.mkdirsRaw, FS.isDir, FS.isDir]
  show (fs.dirs ++ (ancestors p).filter fun a =>
    !(fs.dirs.contains a)).contains q = fs.dirs.contains q
  by_cases hq : q ∈ fs.dirs
  · have h1 : fs.dirs.contains q = true := by simp [hq]
    have h2 : (fs.dirs ++ (ancestors p).filter fun a =>
        !(fs.dirs.contains a)).contains q = true := by
      simp only [List.contains_eq_any_beq] at *
      simp only [List.any_append, h1, Bool.true_or]
    rw [h1, h2]
  · have h1 : fs.dirs.contains q = false := by simp [hq]
    have h2 : (fs.dirs ++ (ancestors p).filter fun a =>
        !(fs.dirs.contains a)).contains q = false := by
      cases hc : (fs.dirs ++ (ancestors p).filter fun a =>
          !(fs.dirs.contains a)).contains q with
      | false => rfl
      | true =>
        exfalso
        have hm : q ∈ fs.dirs ++ (ancestors p).filter fun a =>
            !(fs.dirs.contains a) := by
          simpa using hc
        rcases List.mem_append.mp hm with hm | hm
        · exact hq hm
        · exact hnotanc hm
    rw [h1, h2]

/-- `mkdirsRaw p` makes the non-empty path `p` a directory. -/
theorem isDir_mkdirsRaw_self (fs : FS) (p : Path) (h : p ≠ []) :
    (fs.mkdirsRaw p).isDir p = true := by
  have hmem : p ∈ ancestors p := by
    rw [ancestors, List.mem_map]
    refine ⟨p.length - 1, ?_, ?_⟩
    · rw [List.mem_range]
      cases p with
      | nil => exact absurd rfl h
      | cons x xs => simp
    · have h1 : p.length - 1 + 1 = p.length := by
        cases p with
        | nil => exact absurd rfl h
        | cons x xs => simp
      rw [h1, List.take_length]
  rw [FS.mkdirsRaw, FS.isDir]
  show (fs.dirs ++ (ancestors p).filter fun a =>
    !(fs.dirs.contains a)).contains p = true
  have hm : p ∈ fs.dirs ++ (ancestors p).filter fun a =>
      !(fs.dirs.contains a) := by
    by_cases hd : p ∈ fs.dirs
    · exact List.mem_append.mpr (Or.inl hd)
    · refine List.mem_append.mpr (Or.inr ?_)
      rw [List.mem_filter]
      exact ⟨hmem, by simp [hd]⟩
  simpa using hm

/-- `writeFileRaw` changes no directory. -/
theorem isDir_writeFileRaw (fs : FS) (p q : Path) (d : FileData) :
    (fs.writeFileRaw p d).isDir q = fs.isDir q := rfl

/-- Inversion of a successful checked write. -/
theorem writeFile_ok_inv (fs : FS) (p : Path) (d : FileData) (fs2 : FS)
    (h : fs.writeFile p d = .ok fs2) : fs2 = fs.writeFileRaw p d := by
  unfold FS.writeFile at h
  by_cases h1 : fs.isDir p
  · rw [if_pos h1] at h
    cases h
  · rw [if_neg h1] at h
    by_cases h2 : fs.isDir p.dropLast
    · rw [if_pos h2] at h
      injection h with h3
      exact h3.symm
    · rw [if_neg h2] at h
      by_cases h3 : fs.isFile p.dropLast <;> simp [h3] at h

/-- Inversion of a successful `makedirs`. -/
theorem makedirs_ok_inv (fs : FS) (p : Path) (fs1 : FS)
    (h : fs.makedirs p = .ok fs1) : fs1 = fs.mkdirsRaw p := by
  unfold FS.makedirs at h
  cases hf : (ancestors p).find? (fun a => fs.isFile a) with
  | none =>
    rw [hf] at h
    injection h with h2
    exact h2.symm
  | some a =>
    rw [hf] at h
    by_cases ha : a = p <;> simp [ha] at h

/-- A checked write succeeds when nothing obstructs it. -/
theorem writeFile_ok_of_clear (fs : FS) (p : Path) (d : FileData)
    (h1 : fs.isDir p = false) (h2 : fs.isDir p.dropLast = true) :
    fs.writeFile p d = .ok (fs.writeFileRaw p d) := by
  unfold FS.writeFile
  rw [h1, h2]
  rfl

/-- `makedirs` succeeds when no regular file blocks the ancestor chain. -/
theorem makedirs_ok_of_clear (fs : FS) (p : Path)
    (h : ∀ a ∈ ancestors p, fs.isFile a = false) :
    fs.makedirs p = .ok (fs.mkdirsRaw p) := by
  unfold FS.makedirs
  rw [List.find?_eq_none.mpr (fun a ha => by simp [h a ha])]

theorem isFile_pathExists (fs : FS) (p : Path) (d : FileData)
    (h : fs.lookupFile p = some d) : fs.pathExists p = true := by
  simp [FS.pathExists, FS.isFile, h]

theorem mem_of_lookup_eq_some {α β : Type} [BEq α] [LawfulBEq α]
    {l : List (α × β)} {a : α} {b : β} (h : List.lookup a l = some b) :
    (a, b) ∈ l := by
  induction l with
  | nil => simp [List.lookup] at h
  | cons x xs ih =>
    rcases x with ⟨k, v⟩
    rw [List.lookup_cons] at h
    by_cases hx : a = k
    · have hb : (a == k) = true := by simp [hx]
      rw [hb] at h
      cases h
      subst hx
      exact List.mem_cons_self _ _
    · have hb : (a == k) = false := by simp [hx]
      rw [hb] at h
      exact List.mem_cons_of_mem _ (ih h)

/-- The metadata record `create_version` writes, in terms of the source
content `d` and the generated version id `v`. -/
def writtenMeta (v model_name : String) (tMeta : DateTime)
    (md : List (String × String)) (d : FileData) : MetaObj :=
  [("version", .mstr v), ("model_name", .mstr model_name),
   ("created_at", .mstr tMeta.iso), ("created_by", .mstr "asarekings"),
   ("metadata", .mdict md), ("file_hash", .mstr (sha256hex d.asBytes)),
   ("file_size_bytes", .mnat d.asBytes.length),
   ("platform", .mstr "Enhanced MLOps Platform")]

/-- Computation of a `create_version` call whose source path is a regular
file and whose store is unobstructed (no regular file on the version
directory's ancestor chain, no directory at either target file path, and
the source not already at its own copy destination): the call succeeds,
generates the timestamp+hash id, and writes the version directory, the
artifact copy, and the metadata file. -/
theorem create_version_of_isFile (fs : FS) (tVer tMeta : DateTime)
    (model_name : String) (model_file : Path) (md : List (String × String))
    (d : FileData) (hd : fs.lookupFile model_file = some d)
    (hmk : ∀ a ∈ ancestors (versionDir model_name
        ("v" ++ tVer.compact ++ "_" ++ (sha256hex d.asBytes).take 8)),
      fs.isFile a = false)
    (hdirCopy : fs.isDir (versionDir model_name
        ("v" ++ tVer.compact ++ "_" ++ (sha256hex d.asBytes).take 8) ++
        [model_file.getLastD ""]) = false)
    (hdirMeta : fs.isDir (versionDir model_name
        ("v" ++ tVer.compact ++ "_" ++ (sha256hex d.asBytes).take 8) ++
        ["metadata.json"]) = false)
    (hsame : versionDir model_name
        ("v" ++ tVer.compact ++ "_" ++ (sha256hex d.asBytes).take 8) ++
        [model_file.getLastD ""] ≠ model_file) :
    create_version fs tVer tMeta model_name model_file md =
      (((fs.mkdirsRaw (versionDir model_name
            ("v" ++ tVer.compact ++ "_" ++ (sha256hex d.asBytes).take 8))).writeFileRaw
          (versionDir model_name
            ("v" ++ tVer.compact ++ "_" ++ (sha256hex d.asBytes).take 8) ++
              [model_file.getLastD ""]) d).writeFileRaw
        (versionDir model_name
            ("v" ++ tVer.compact ++ "_" ++ (sha256hex d.asBytes).take 8) ++
          ["metadata.json"])
        (.json (writtenMeta ("v" ++ tVer.compact ++ "_" ++ (sha256hex d.asBytes).take 8)
          model_name tMeta md d)),
       .ok ("v" ++ tVer.compact ++ "_" ++ (sha256hex d.asBytes).take 8)) := by
  have hex : fs.pathExists model_file = true := isFile_pathExists fs _ d hd
  have hgen : generate_version_id fs tVer model_file =
      .ok ("v" ++ tVer.compact ++ "_" ++ (sha256hex d.asBytes).take 8) := by
    simp [generate_version_id, calculate_file_hash, hd, Except.map]
  have hmkd : fs.makedirs (versionDir model_name
      ("v" ++ tVer.compact ++ "_" ++ (sha256hex d.asBytes).take 8)) =
      .ok (fs.mkdirsRaw (versionDir model_name
        ("v" ++ tVer.compact ++ "_" ++ (sha256hex d.asBytes).take 8))) :=
    makedirs_ok_of_clear fs _ hmk
  have hvne : versionDir model_name
      ("v" ++ tVer.compact ++ "_" ++ (sha256hex d.asBytes).take 8) ≠ [] := by
    simp [versionDir]
  have hparent : (fs.mkdirsRaw (versionDir model_name
      ("v" ++ tVer.compact ++ "_" ++ (sha256hex d.asBytes).take 8))).isDir
      (versionDir model_name
        ("v" ++ tVer.compact ++ "_" ++ (sha256hex d.asBytes).take 8)) = true :=
    isDir_mkdirsRaw_self fs _ hvne
  have hlen4 : ∀ x : String, (versionDir model_name
      ("v" ++ tVer.compact ++ "_" ++ (sha256hex d.asBytes).take 8)).length <
      (versionDir model_name
        ("v" ++ tVer.compact ++ "_" ++ (sha256hex d.asBytes).take 8) ++
        [x]).length := by
    intro x
    simp [versionDir]
  have hw1 : (fs.mkdirsRaw (versionDir model_name
      ("v" ++ tVer.compact ++ "_" ++ (sha256hex d.asBytes).take 8))).writeFile
      (versionDir model_name
        ("v" ++ tVer.compact ++ "_" ++ (sha256hex d.asBytes).take 8) ++
        [model_file.getLastD ""]) d =
      .ok ((fs.mkdirsRaw (versionDir model_name
        ("v" ++ tVer.compact ++ "_" ++ (sha256hex d.asBytes).take 8))).writeFileRaw
        (versionDir model_name
          ("v" ++ tVer.compact ++ "_" ++ (sha256hex d.asBytes).take 8) ++
          [model_file.getLastD ""]) d) := by
    apply writeFile_ok_of_clear
    · rw [isDir_mkdirsRaw_of_longer fs _ _ (hlen4 _)]
      exact hdirCopy
    · rw [List.dropLast_concat]
      exact hparent
  have hlook2 : ((fs.mkdirsRaw (versionDir model_name
      ("v" ++ tVer.compact ++ "_" ++ (sha256hex d.asBytes).take 8))).writeFileRaw
      (versionDir model_name
        ("v" ++ tVer.compact ++ "_" ++ (sha256hex d.asBytes).take 8) ++
        [model_file.getLastD ""]) d).lookupFile model_file = some d := by
    rw [lookupFile_writeFileRaw, if_neg (fun hc => hsame hc.symm), lookupFile_mkdirsRaw]
    exact hd
  have hhash2 : calculate_file_hash ((fs.mkdirsRaw (versionDir model_name
      ("v" ++ tVer.compact ++ "_" ++ (sha256hex d.asBytes).take 8))).writeFileRaw
      (versionDir model_name
        ("v" ++ tVer.compact ++ "_" ++ (sha256hex d.asBytes).take 8) ++
        [model_file.getLastD ""]) d) model_file = .ok (sha256hex d.asBytes) := by
    unfold calculate_file_hash
    rw [hlook2]
  have hsize2 : getsize ((fs.mkdirsRaw (versionDir model_name
      ("v" ++ tVer.compact ++ "_" ++ (sha256hex d.asBytes).take 8))).writeFileRaw
      (versionDir model_name
        ("v" ++ tVer.compact ++ "_" ++ (sha256hex d.asBytes).take 8) ++
        [model_file.getLastD ""]) d) model_file = .ok d.asBytes.length := by
    unfold getsize
    rw [hlook2]
  have hw2 : ((fs.mkdirsRaw (versionDir model_name
      ("v" ++ tVer.compact ++ "_" ++ (sha256hex d.asBytes).take 8))).writeFileRaw
      (versionDir model_name
        ("v" ++ tVer.compact ++ "_" ++ (sha256hex d.asBytes).take 8) ++
        [model_file.getLastD ""]) d).writeFile
      (versionDir model_name
        ("v" ++ tVer.compact ++ "_" ++ (sha256hex d.asBytes).take 8) ++
        ["metadata.json"])
      (.json (writtenMeta ("v" ++ tVer.compact ++ "_" ++ (sha256hex d.asBytes).take 8)
        model_name tMeta md d)) =
      .ok (((fs.mkdirsRaw (versionDir model_name
        ("v" ++ tVer.compact ++ "_" ++ (sha256hex d.asBytes).take 8))).writeFileRaw
        (versionDir model_name
          ("v" ++ tVer.compact ++ "_" ++ (sha256hex d.asBytes).take 8) ++
          [model_file.getLastD ""]) d).writeFileRaw
        (versionDir model_name
          ("v" ++ tVer.compact ++ "_" ++ (sha256hex d.asBytes).take 8) ++
          ["metadata.json"])
        (.json (writtenMeta ("v" ++ tVer.compact ++ "_" ++ (sha256hex d.asBytes).take 8)
          model_name tMeta md d))) := by
    apply writeFile_ok_of_clear
    · rw [isDir_writeFileRaw, isDir_mkdirsRaw_of_longer fs _ _ (hlen4 _)]
      exact hdirMeta
    · rw [List.dropLast_concat, isDir_writeFileRaw]
      exact hparent
  unfold create_version
  rw [hex]
  rw [if_pos rfl, hgen]
  simp only [hmkd, lookupFile_mkdirsRaw, hd, if_neg hsame, hw1, hhash2, hsize2, writtenMeta]
  simp only [writtenMeta] at hw2
  simp only [hw2]

/-- Dissection of every successful `create_version` call: the source was a
readable file, the returned id is built from the timestamp and the hash of
its content, and the final state is the original state plus the version
directory, the copied artifact and the metadata file. -/
theorem create_version_ok_spec (fs : FS) (tVer tMeta : DateTime)
    (model_name : String) (model_file : Path) (md : List (String × String))
    (fs' : FS) (v : String)
    (h : create_version fs tVer tMeta model_name model_file md = (fs', .ok v)) :
    ∃ d : FileData, fs.lookupFile model_file = some d ∧
      v = "v" ++ tVer.compact ++ "_" ++ (sha256hex d.asBytes).take 8 ∧
      fs' = ((fs.mkdirsRaw (versionDir model_name v)).writeFileRaw
              (versionDir model_name v ++ [model_file.getLastD ""]) d).writeFileRaw
              (versionDir model_name v ++ ["metadata.json"])
              (.json (writtenMeta v model_name tMeta md d)) := by
  cases hd : fs.lookupFile model_file with
  | none =>
    exfalso
    by_cases hdir : fs.isDir model_file
    · have hex : fs.pathExists model_file = true := by
        simp [FS.pathExists, hdir]
      have hgen : generate_version_id fs tVer model_file =
          .error .isADirectory := by
        simp [generate_version_id, calculate_file_hash, hd, hdir, Except.map]
      simp [create_version, hex, hgen] at h
    · have hex : fs.pathExists model_file = false := by
        simp [FS.pathExists, FS.isFile, hd, hdir]
      simp [create_version, hex] at h
  | some d =>
    have hex : fs.pathExists model_file = true := isFile_pathExists fs _ d hd
    have hgen : generate_version_id fs tVer model_file =
        .ok ("v" ++ tVer.compact ++ "_" ++ (sha256hex d.asBytes).take 8) := by
      simp [generate_version_id, calculate_file_hash, hd, Except.map]
    unfold create_version at h
    rw [hex] at h
    rw [if_pos rfl, hgen] at h
    cases hmk : fs.makedirs (versionDir model_name
        ("v" ++ tVer.compact ++ "_" ++ (sha256hex d.asBytes).take 8)) with
    | error e =>
      simp only [hmk] at h
      simp at h
    | ok fs1 =>
      simp only [hmk] at h
      have hfs1 := makedirs_ok_inv _ _ _ hmk
      subst hfs1
      simp only [lookupFile_mkdirsRaw, hd] at h
      by_cases hsame : versionDir model_name
          ("v" ++ tVer.compact ++ "_" ++ (sha256hex d.asBytes).take 8) ++
          [model_file.getLastD ""] = model_file
      · rw [if_pos hsame] at h
        simp at h
      · rw [if_neg hsame] at h
        cases hw1 : (fs.mkdirsRaw (versionDir model_name
            ("v" ++ tVer.compact ++ "_" ++ (sha256hex d.asBytes).take 8))).writeFile
            (versionDir model_name
              ("v" ++ tVer.compact ++ "_" ++ (sha256hex d.asBytes).take 8) ++
              [model_file.getLastD ""]) d with
        | error e =>
          simp only [hw1] at h
          simp at h
        | ok fs2 =>
          simp only [hw1] at h
          have hfs2 := writeFile_ok_inv _ _ _ _ hw1
          subst hfs2
          have hlook2 : ((fs.mkdirsRaw (versionDir model_name
              ("v" ++ tVer.compact ++ "_" ++ (sha256hex d.asBytes).take 8))).writeFileRaw
              (versionDir model_name
                ("v" ++ tVer.compact ++ "_" ++ (sha256hex d.asBytes).take 8) ++
                [model_file.getLastD ""]) d).lookupFile model_file = some d := by
            rw [lookupFile_writeFileRaw, if_neg (fun hc => hsame hc.symm),
              lookupFile_mkdirsRaw]
            exact hd
          have hhash2 : calculate_file_hash ((fs.mkdirsRaw (versionDir model_name
              ("v" ++ tVer.compact ++ "_" ++ (sha256hex d.asBytes).take 8))).writeFileRaw
              (versionDir model_name
                ("v" ++ tVer.compact ++ "_" ++ (sha256hex d.asBytes).take 8) ++
                [model_file.getLastD ""]) d) model_file =
              .ok (sha256hex d.asBytes) := by
            unfold calculate_file_hash
            rw [hlook2]
          have hsize2 : getsize ((fs.mkdirsRaw (versionDir model_name
              ("v" ++ tVer.compact ++ "_" ++ (sha256hex d.asBytes).take 8))).writeFileRaw
              (versionDir model_name
                ("v" ++ tVer.compact ++ "_" ++ (sha256hex d.asBytes).take 8) ++
                [model_file.getLastD ""]) d) model_file =
              .ok d.asBytes.length := by
            unfold getsize
            rw [hlook2]
          simp only [hhash2, hsize2] at h
          cases hw2 : ((fs.mkdirsRaw (versionDir model_name
              ("v" ++ tVer.compact ++ "_" ++ (sha256hex d.asBytes).take 8))).writeFileRaw
              (versionDir model_name
                ("v" ++ tVer.compact ++ "_" ++ (sha256hex d.asBytes).take 8) ++
                [model_file.getLastD ""]) d).writeFile
              (versionDir model_name
                ("v" ++ tVer.compact ++ "_" ++ (sha256hex d.asBytes).take 8) ++
                ["metadata.json"])
              (.json (writtenMeta
                ("v" ++ tVer.compact ++ "_" ++ (sha256hex d.asBytes).take 8)
                model_name tMeta md d)) with
          | error e =>
            simp only [writtenMeta] at hw2
            simp only [hw2] at h
            simp at h
          | ok fs3 =>
            simp only [writtenMeta] at hw2
            simp only [hw2] at h
            have hfs3 := writeFile_ok_inv _ _ _ _ hw2
            rw [Prod.mk.injEq] at h
            obtain ⟨h1, h2⟩ := h
            injection h2 with h2
            subst h2
            refine ⟨d, rfl, rfl, ?_⟩
            rw [← h1, hfs3]
            simp only [writtenMeta]

/-- C2 (amended): `create_version` fails with the NotFound outcome and
leaves the filesystem unchanged when the source artifact path does not
exist; when the path is a readable regular file it succeeds provided the
store is unobstructed: no regular file sits on the generated version
directory's ancestor chain, no directory occupies either target file path
inside it, and the source is not already at its own copy destination
(otherwise `os.makedirs` raises `NotADirectoryError`/`FileExistsError` and
`shutil.copy2` raises `IsADirectoryError`/`SameFileError`). -/
theorem create_version_source_precondition (fs : FS) (tVer tMeta : DateTime)
    (model_name : String) (model_file : Path) (md : List (String × String)) :
    (fs.pathExists model_file = false →
      create_version fs tVer tMeta model_name model_file md =
        (fs, .error .notFound)) ∧
    (∀ d, fs.lookupFile model_file = some d →
      (∀ a ∈ ancestors (versionDir model_name
          ("v" ++ tVer.compact ++ "_" ++ (sha256hex d.asBytes).take 8)),
        fs.isFile a = false) →
      fs.isDir (versionDir model_name
        ("v" ++ tVer.compact ++ "_" ++ (sha256hex d.asBytes).take 8) ++
        [model_file.getLastD ""]) = false →
      fs.isDir (versionDir model_name
        ("v" ++ tVer.compact ++ "_" ++ (sha256hex d.asBytes).take 8) ++
        ["metadata.json"]) = false →
      versionDir model_name
        ("v" ++ tVer.compact ++ "_" ++ (sha256hex d.asBytes).take 8) ++
        [model_file.getLastD ""] ≠ model_file →
      ∃ fs' v, create_version fs tVer tMeta model_name model_file md =
        (fs', .ok v)) := by
  refine ⟨fun hmiss => ?_, fun d hd hmk h1 h2 h3 => ?_⟩
  · simp [create_version, hmiss]
  · exact ⟨_, _, create_version_of_isFile fs tVer tMeta model_name model_file
      md d hd hmk h1 h2 h3⟩

/-- C8: rolling back to a version whose directory does not exist yields the
ValueError failure and leaves the whole filesystem - in particular the
active artifact of the model - unchanged. -/
theorem rollback_missing_version_is_frame (fs : FS)
    (model_name version_id : String)
    (hmiss : fs.pathExists (versionDir model_name version_id) = false) :
    (rollback_to_version fs model_name version_id).2 = .error .valueError ∧
    (rollback_to_version fs model_name version_id).1.lookupFile
        (activeModelPath model_name) =
      fs.lookupFile (activeModelPath model_name) := by
  simp [rollback_to_version, hmiss]

/-- C6: every version id returned by a successful `create_version` call has
the exact shape `v<YYYYMMDD_HHMMSS>_<hash8>`: the character `v`, then the
compact rendering of the creation-time clock sample (fifteen characters,
all digits except the underscore at index 8), an underscore, and the first
8 lowercase-hex characters of the SHA-256 digest of the source artifact's
content. -/
theorem version_id_format (fs : FS) (tVer tMeta : DateTime)
    (model_name : String) (model_file : Path) (md : List (String × String))
    (fs' : FS) (v : String)
    (h : create_version fs tVer tMeta model_name model_file md = (fs', .ok v)) :
    ∃ d : FileData, fs.lookupFile model_file = some d ∧
      v = "v" ++ tVer.compact ++ "_" ++ (sha256hex d.asBytes).take 8 ∧
      compactShape tVer.compact = true ∧
      ((sha256hex d.asBytes).take 8).length = 8 ∧
      ((sha256hex d.asBytes).take 8).data.all isLowerHexCh = true := by
  obtain ⟨d, hd, hv, -⟩ :=
    create_version_ok_spec fs tVer tMeta model_name model_file md fs' v h
  exact ⟨d, hd, hv, compactShape_compact tVer, take8_hex_length d.asBytes,
    take8_hex_all_hex d.asBytes⟩

/-- C10: for every successful `create_version` call, the 8-character suffix
of the returned version id equals the first 8 characters of the
`file_hash` recorded in that version's metadata file (the hash is computed
twice over unchanged content, so the two computations agree). -/
theorem version_id_suffix_matches_stored_hash (fs : FS) (tVer tMeta : DateTime)
    (model_name : String) (model_file : Path) (md : List (String × String))
    (fs' : FS) (v : String)
    (h : create_version fs tVer tMeta model_name model_file md = (fs', .ok v)) :
    ∃ (m : MetaObj) (fh : String),
      fs'.lookupFile (metadataPath model_name v) = some (.json m) ∧
      m.lookup "file_hash" = some (.mstr fh) ∧
      v = "v" ++ tVer.compact ++ "_" ++ fh.take 8 := by
  obtain ⟨d, hd, hv, hfs'⟩ :=
    create_version_ok_spec fs tVer tMeta model_name model_file md fs' v h
  refine ⟨writtenMeta v model_name tMeta md d, sha256hex d.asBytes, ?_, ?_, hv⟩
  · rw [hfs', lookupFile_writeFileRaw]
    simp [metadataPath]
  · rfl

/-- C7: comparing a version with itself reports `same_hash = true` and
`size_difference = 0` whenever the version's metadata file is present and
carries the fields in the shapes `create_version` writes. -/
theorem compare_version_with_itself (fs : FS) (model_name v : String)
    (m : MetaObj)
    (hload : fs.lookupFile (metadataPath model_name v) = some (.json m))
    (hca : ∃ s, m.lookup "created_at" = some (.mstr s))
    (hfh : ∃ x, m.lookup "file_hash" = some x)
    (hsz : m.lookup "file_size_bytes" = none ∨
           ∃ n, m.lookup "file_size_bytes" = some (.mnat n)) :
    get_version_comparison fs model_name v v =
      .ok (.found model_name true 0 false) := by
  obtain ⟨s, hs⟩ := hca
  obtain ⟨x, hx⟩ := hfh
  have hexists : fs.pathExists (metadataPath model_name v) = true :=
    isFile_pathExists _ _ _ hload
  have hjson : jsonLoad fs (metadataPath model_name v) = .ok m := by
    simp [jsonLoad, hload]
  have hopt : loadIfExists fs (metadataPath model_name v) = .ok (some m) := by
    simp [loadIfExists, hexists, hjson, Except.map]
  have hempty : m.isEmpty = false := by
    cases m with
    | nil => simp [List.lookup] at hs
    | cons a l => rfl
  have hgetc : getItem m "created_at" = .ok (.mstr s) := by
    simp [getItem, hs]
  have hgeth : getItem m "file_hash" = .ok x := by
    simp [getItem, hx]
  have hgt : mvGt (MetaVal.mstr s) (MetaVal.mstr s) = .ok false := by
    simp [mvGt]
  have hhash : (x == x) = true := by simp
  rcases hsz with hnone | ⟨n, hn⟩
  · have hsize : sizeOrZero m = .ok 0 := by simp [sizeOrZero, hnone]
    simp [get_version_comparison, hopt, hempty, hgetc, hgeth, hsize, hgt, hhash]
  · have hsize : sizeOrZero m = .ok (n : Int) := by simp [sizeOrZero, hn]
    simp [get_version_comparison, hopt, hempty, hgetc, hgeth, hsize, hgt, hhash]

/-- C3 (amended): `rollback_to_version` fails with the NotFound
(`ValueError`) outcome when the version directory does not exist; when the
directory exists (with regular-file entries, the only kind its own
operations create there), the call returns `false` and changes nothing if
no entry name ends in `.pkl`; otherwise, provided the destination is
writable - the `models/` directory exists and no directory occupies the
active artifact path (else `copy2` raises
`FileNotFoundError`/`NotADirectoryError`/`IsADirectoryError`) - the first
matching file is copied over the model's active artifact path,
overwriting any existing one, and the call returns `true`. -/
theorem rollback_version_cases (fs : FS) (model_name version_id : String) :
    (fs.pathExists (versionDir model_name version_id) = false →
      rollback_to_version fs model_name version_id = (fs, .error .valueError)) ∧
    (fs.isDir (versionDir model_name version_id) = true →
     (∀ n ∈ fs.listdir (versionDir model_name version_id),
        fs.isFile (versionDir model_name version_id ++ [n]) = true) →
     (((fs.listdir (versionDir model_name version_id)).filter
         (fun f => endsWithPkl f) = [] →
        rollback_to_version fs model_name version_id = (fs, .ok false)) ∧
      (∀ f rest, (fs.listdir (versionDir model_name version_id)).filter
          (fun f => endsWithPkl f) = f :: rest →
        fs.isDir ["models"] = true →
        fs.isDir (activeModelPath model_name) = false →
        ∃ d, fs.lookupFile (versionDir model_name version_id ++ [f]) = some d ∧
          rollback_to_version fs model_name version_id =
            (fs.writeFileRaw (activeModelPath model_name) d, .ok true)))) := by
  refine ⟨fun hmiss => ?_, fun hdir hfiles => ⟨fun hnone => ?_,
    fun f rest hcons hmdir hactnd => ?_⟩⟩
  · simp [rollback_to_version, hmiss]
  · have hpe : fs.pathExists (versionDir model_name version_id) = true := by
      simp [FS.pathExists, hdir]
    have hlde : fs.listdirE (versionDir model_name version_id) =
        .ok (fs.listdir (versionDir model_name version_id)) := by
      simp [FS.listdirE, hdir]
    simp [rollback_to_version, hpe, hlde, hnone]
  · have hpe : fs.pathExists (versionDir model_name version_id) = true := by
      simp [FS.pathExists, hdir]
    have hlde : fs.listdirE (versionDir model_name version_id) =
        .ok (fs.listdir (versionDir model_name version_id)) := by
      simp [FS.listdirE, hdir]
    have hfmem : f ∈ fs.listdir (versionDir model_name version_id) := by
      have : f ∈ (fs.listdir (versionDir model_name version_id)).filter
          (fun f => endsWithPkl f) := by
        rw [hcons]
        exact List.mem_cons_self _ _
      exact List.mem_of_mem_filter this
    have hfile := hfiles f hfmem
    rw [FS.isFile, Option.isSome_iff_exists] at hfile
    obtain ⟨d, hd⟩ := hfile
    have hw : fs.writeFile (activeModelPath model_name) d =
        .ok (fs.writeFileRaw (activeModelPath model_name) d) := by
      apply writeFile_ok_of_clear
      · exact hactnd
      · exact hmdir
    refine ⟨d, hd, ?_⟩
    simp [rollback_to_version, hpe, hlde, hcons, hd, hw]

/-! ## Lemmas about listing and sorting -/

/-- Executable well-formedness of one potential version entry: if the
metadata path exists at all, it is a regular JSON file whose `created_at`
is a string (the only shape `create_version` ever writes). -/
def goodMetaB (fs : FS) (mdir : Path) (vid : String) : Bool :=
  !(fs.pathExists (mdir ++ [vid, "metadata.json"])) ||
    (match fs.lookupFile (mdir ++ [vid, "metadata.json"]) with
     | some (.json m) =>
       (match m.lookup "created_at" with
        | some (.mstr _) => true
        | _ => false)
     | _ => false)

/-- The records `list_versions` collects, entry by entry, before sorting. -/
def collectedRecords (fs : FS) (mdir : Path) (vids : List String) : List MetaObj :=
  vids.filterMap fun vid =>
    match fs.lookupFile (mdir ++ [vid, "metadata.json"]) with
    | some (.json m) => some m
    | _ => none

theorem jsonLoad_ok_iff (fs : FS) (p : Path) (m : MetaObj) :
    jsonLoad fs p = .ok m ↔ fs.lookupFile p = some (.json m) := by
  unfold jsonLoad
  cases hl : fs.lookupFile p with
  | none => by_cases hd : fs.isDir p <;> simp [hd]
  | some fd => cases fd <;> simp

theorem listdirE_ok_inv (fs : FS) (p : Path) (vids : List String)
    (h : fs.listdirE p = .ok vids) :
    fs.isDir p = true ∧ vids = fs.listdir p := by
  unfold FS.listdirE at h
  by_cases hd : fs.isDir p
  · rw [if_pos hd] at h
    injection h with h2
    exact ⟨hd, h2.symm⟩
  · rw [if_neg hd] at h
    by_cases hf : fs.isFile p <;> simp [hf] at h

theorem collectVersions_ok_of_good (fs : FS) (mdir : Path) (vids : List String)
    (hgood : ∀ vid ∈ vids, goodMetaB fs mdir vid = true) :
    collectVersions fs mdir vids = .ok (collectedRecords fs mdir vids) ∧
    (collectedRecords fs mdir vids).length =
      (vids.filter fun vid =>
        fs.pathExists (mdir ++ [vid, "metadata.json"])).length := by
  induction vids with
  | nil => exact ⟨rfl, rfl⟩
  | cons vid rest ih =>
    have hg := hgood vid (List.mem_cons_self _ _)
    obtain ⟨ihc, ihl⟩ := ih fun v hv => hgood v (List.mem_cons_of_mem _ hv)
    by_cases hpe : fs.pathExists (mdir ++ [vid, "metadata.json"])
    · rw [goodMetaB, hpe] at hg
      simp only [Bool.not_true, Bool.false_or] at hg
      cases hl : fs.lookupFile (mdir ++ [vid, "metadata.json"]) with
      | none =>
        rw [hl] at hg
        cases hg
      | some fd =>
        cases fd with
        | bytes bs =>
          rw [hl] at hg
          cases hg
        | json m =>
          have hj : jsonLoad fs (mdir ++ [vid, "metadata.json"]) = .ok m :=
            (jsonLoad_ok_iff fs _ m).mpr hl
          constructor
          · unfold collectVersions
            rw [if_pos hpe, hj, ihc]
            simp [collectedRecords, hl, Except.map]
          · simp [collectedRecords, List.filterMap_cons, hl,
              List.filter_cons, hpe]
            exact ihl
    · have hnof : fs.lookupFile (mdir ++ [vid, "metadata.json"]) = none := by
        cases hl : fs.lookupFile (mdir ++ [vid, "metadata.json"]) with
        | none => rfl
        | some fd => exact absurd (isFile_pathExists fs _ fd hl) (by simp [hpe])
      constructor
      · unfold collectVersions
        rw [if_neg hpe, ihc]
        simp [collectedRecords, hnof]
      · simp [collectedRecords, List.filterMap_cons, hnof,
          List.filter_cons, hpe]
        exact ihl

theorem mem_collectedRecords (fs : FS) (mdir : Path) (vids : List String)
    (m : MetaObj) (hm : m ∈ collectedRecords fs mdir vids) :
    ∃ vid ∈ vids,
      fs.lookupFile (mdir ++ [vid, "metadata.json"]) = some (.json m) := by
  unfold collectedRecords at hm
  rw [List.mem_filterMap] at hm
  obtain ⟨vid, hvid, hsome⟩ := hm
  refine ⟨vid, hvid, ?_⟩
  cases hl : fs.lookupFile (mdir ++ [vid, "metadata.json"]) with
  | none =>
    rw [hl] at hsome
    cases hsome
  | some fd =>
    rw [hl] at hsome
    cases fd with
    | bytes bs => cases hsome
    | json m0 =>
      cases hsome
      rfl

theorem mem_of_collectVersions_ok (fs : FS) (mdir : Path) :
    ∀ (vids : List String) (vs : List MetaObj) (m : MetaObj),
    collectVersions fs mdir vids = .ok vs → m ∈ vs →
    ∃ vid ∈ vids,
      fs.lookupFile (mdir ++ [vid, "metadata.json"]) = some (.json m) := by
  intro vids
  induction vids with
  | nil =>
    intro vs m h hm
    unfold collectVersions at h
    injection h with h2
    subst h2
    cases hm
  | cons vid rest ih =>
    intro vs m h hm
    unfold collectVersions at h
    by_cases hpe : fs.pathExists (mdir ++ [vid, "metadata.json"])
    · rw [if_pos hpe] at h
      cases hjl : jsonLoad fs (mdir ++ [vid, "metadata.json"]) with
      | error e =>
        rw [hjl] at h
        cases h
      | ok m0 =>
        rw [hjl] at h
        cases hrest : collectVersions fs mdir rest with
        | error e =>
          rw [hrest] at h
          cases h
        | ok vs' =>
          rw [hrest] at h
          injection h with h2
          subst h2
          rcases List.mem_cons.mp hm with rfl | hm'
          · exact ⟨vid, List.mem_cons_self _ _, (jsonLoad_ok_iff fs _ m).mp hjl⟩
          · obtain ⟨v2, hv2, hl2⟩ := ih vs' m hrest hm'
            exact ⟨v2, List.mem_cons_of_mem _ hv2, hl2⟩
    · rw [if_neg hpe] at h
      obtain ⟨v2, hv2, hl2⟩ := ih vs m h hm
      exact ⟨v2, List.mem_cons_of_mem _ hv2, hl2⟩

theorem extractKeys_ok_of_good (vs : List MetaObj)
    (hgood : ∀ m ∈ vs, ∃ s, m.lookup "created_at" = some (.mstr s)) :
    ∃ l, extractKeys vs = .ok l := by
  induction vs with
  | nil => exact ⟨[], rfl⟩
  | cons m rest ih =>
    obtain ⟨s, hs⟩ := hgood m (List.mem_cons_self _ _)
    obtain ⟨l, hl⟩ := ih fun v hv => hgood v (List.mem_cons_of_mem _ hv)
    refine ⟨s :: l, ?_⟩
    unfold extractKeys
    rw [show createdAtString m = .ok s by simp [createdAtString, hs], hl]
    rfl

theorem extractKeys_error_of_missing (vs : List MetaObj) (m : MetaObj)
    (hmem : m ∈ vs) (hno : m.lookup "created_at" = none) :
    ∃ e, extractKeys vs = .error e := by
  induction vs with
  | nil => cases hmem
  | cons v rest ih =>
    rcases List.mem_cons.mp hmem with rfl | hm
    · refine ⟨.keyError, ?_⟩
      unfold extractKeys
      rw [show createdAtString m = .error .keyError by simp [createdAtString, hno]]
    · cases hv : createdAtString v with
      | error e =>
        refine ⟨e, ?_⟩
        unfold extractKeys
        rw [hv]
      | ok s =>
        obtain ⟨e, he⟩ := ih hm
        refine ⟨e, ?_⟩
        unfold extractKeys
        rw [hv, he]
        rfl

theorem sortVersions_ok_of_good (vs : List MetaObj)
    (hgood : ∀ m ∈ vs, ∃ s, m.lookup "created_at" = some (.mstr s)) :
    sortVersions vs = .ok (List.insertionSort keyGe vs) := by
  obtain ⟨l, hl⟩ := extractKeys_ok_of_good vs hgood
  unfold sortVersions
  rw [hl]

theorem sortVersions_ok_inv (vs l : List MetaObj)
    (h : sortVersions vs = .ok l) : l = List.insertionSort keyGe vs := by
  unfold sortVersions at h
  cases hk : extractKeys vs with
  | error e =>
    rw [hk] at h
    cases h
  | ok ks =>
    rw [hk] at h
    injection h with h2
    exact h2.symm

theorem filesUnder_rmtree_self (fs : FS) (p : Path) :
    (fs.rmtree p).filesUnder p = [] := by
  rw [FS.rmtree, FS.filesUnder]
  rw [List.filter_filter]
  rw [List.filter_eq_nil_iff]
  intro f hf
  cases h : underPath p f.1 <;> simp [h]

theorem collectVersions_error_of_bytes (fs : FS) (mdir : Path) :
    ∀ (vids : List String) (vid : String) (bs : List Nat),
    vid ∈ vids →
    fs.lookupFile (mdir ++ [vid, "metadata.json"]) = some (.bytes bs) →
    ∃ e, collectVersions fs mdir vids = .error e := by
  intro vids
  induction vids with
  | nil =>
    intro vid bs hmem _
    cases hmem
  | cons v rest ih =>
    intro vid bs hmem hl
    rcases List.mem_cons.mp hmem with rfl | hmem'
    · have hpe : fs.pathExists (mdir ++ [vid, "metadata.json"]) = true :=
        isFile_pathExists fs _ _ hl
      have hj : jsonLoad fs (mdir ++ [vid, "metadata.json"]) =
          .error .jsonDecodeError := by
        simp [jsonLoad, hl]
      refine ⟨.jsonDecodeError, ?_⟩
      unfold collectVersions
      rw [if_pos hpe, hj]
    · by_cases hpe : fs.pathExists (mdir ++ [v, "metadata.json"])
      · cases hjl : jsonLoad fs (mdir ++ [v, "metadata.json"]) with
        | error e =>
          refine ⟨e, ?_⟩
          unfold collectVersions
          rw [if_pos hpe, hjl]
        | ok m0 =>
          obtain ⟨e, he⟩ := ih vid bs hmem' hl
          refine ⟨e, ?_⟩
          unfold collectVersions
          rw [if_pos hpe, hjl, he]
          rfl
      · obtain ⟨e, he⟩ := ih vid bs hmem' hl
        refine ⟨e, ?_⟩
        unfold collectVersions
        rw [if_neg hpe]
        exact he

theorem collectVersions_mem (fs : FS) (mdir : Path) :
    ∀ (vids : List String) (vs : List MetaObj) (vid : String) (m : MetaObj),
    collectVersions fs mdir vids = .ok vs → vid ∈ vids →
    fs.lookupFile (mdir ++ [vid, "metadata.json"]) = some (.json m) →
    m ∈ vs := by
  intro vids
  induction vids with
  | nil =>
    intro vs vid m _ hmem _
    cases hmem
  | cons v rest ih =>
    intro vs vid m h hmem hl
    unfold collectVersions at h
    rcases List.mem_cons.mp hmem with rfl | hmem'
    · have hpe : fs.pathExists (mdir ++ [vid, "metadata.json"]) = true :=
        isFile_pathExists fs _ _ hl
      rw [if_pos hpe, (jsonLoad_ok_iff fs _ m).mpr hl] at h
      cases hrest : collectVersions fs mdir rest with
      | error e =>
        rw [hrest] at h
        cases h
      | ok vs' =>
        rw [hrest] at h
        injection h with h2
        subst h2
        exact List.mem_cons_self _ _
    · by_cases hpe : fs.pathExists (mdir ++ [v, "metadata.json"])
      · rw [if_pos hpe] at h
        cases hjl : jsonLoad fs (mdir ++ [v, "metadata.json"]) with
        | error e =>
          rw [hjl] at h
          cases h
        | ok m0 =>
          rw [hjl] at h
          cases hrest : collectVersions fs mdir rest with
          | error e =>
            rw [hrest] at h
            cases h
          | ok vs' =>
            rw [hrest] at h
            injection h with h2
            subst h2
            exact List.mem_cons_of_mem _ (ih vs' vid m hrest hmem' hl)
      · rw [if_neg hpe] at h
        exact ih vs vid m h hmem' hl

theorem sortVersions_error_of_missing (vs : List MetaObj) (m : MetaObj)
    (hm : m ∈ vs) (hno : m.lookup "created_at" = none) :
    ∃ e, sortVersions vs = .error e := by
  obtain ⟨e, he⟩ := extractKeys_error_of_missing vs m hm hno
  refine ⟨e, ?_⟩
  unfold sortVersions
  rw [he]

/-- C4: `list_versions` returns an empty sequence - not an error - when the
model has no version root; when the root exists (its metadata files being
as `create_version` writes them), it returns exactly one record per root
entry whose metadata file exists, silently skipping entries without one,
sorted by `created_at` descending. -/
theorem list_versions_spec (fs : FS) (model_name : String) :
    (fs.pathExists (modelRootDir model_name) = false →
      list_versions fs model_name = .ok []) ∧
    (fs.isDir (modelRootDir model_name) = true →
     (∀ vid ∈ fs.listdir (modelRootDir model_name),
        goodMetaB fs (modelRootDir model_name) vid = true) →
     ∃ l, list_versions fs model_name = .ok l ∧
       l.Perm (collectedRecords fs (modelRootDir model_name)
         (fs.listdir (modelRootDir model_name))) ∧
       List.Sorted keyGe l ∧
       l.length = ((fs.listdir (modelRootDir model_name)).filter fun vid =>
         fs.pathExists (modelRootDir model_name ++
           [vid, "metadata.json"])).length) := by
  constructor
  · intro hmiss
    simp [list_versions, hmiss]
  · intro hdir hgood
    have hpe : fs.pathExists (modelRootDir model_name) = true := by
      simp [FS.pathExists, hdir]
    have hlde : fs.listdirE (modelRootDir model_name) =
        .ok (fs.listdir (modelRootDir model_name)) := by
      simp [FS.listdirE, hdir]
    obtain ⟨hcol, hlen⟩ := collectVersions_ok_of_good fs _ _ hgood
    have hColGood : ∀ m ∈ collectedRecords fs (modelRootDir model_name)
        (fs.listdir (modelRootDir model_name)),
        ∃ s, m.lookup "created_at" = some (.mstr s) := by
      intro m hm
      obtain ⟨vid, hvid, hl⟩ := mem_collectedRecords fs _ _ m hm
      have hg := hgood vid hvid
      have hpe2 : fs.pathExists (modelRootDir model_name ++
          [vid, "metadata.json"]) = true := isFile_pathExists fs _ _ hl
      rw [goodMetaB, hpe2, hl] at hg
      simp only [Bool.not_true, Bool.false_or] at hg
      cases hca : m.lookup "created_at" with
      | none =>
        rw [hca] at hg
        cases hg
      | some mv =>
        cases mv with
        | mstr s => exact ⟨s, rfl⟩
        | mnat n =>
          rw [hca] at hg
          cases hg
        | mdict kvs =>
          rw [hca] at hg
          cases hg
    have hsort := sortVersions_ok_of_good _ hColGood
    refine ⟨List.insertionSort keyGe (collectedRecords fs
      (modelRootDir model_name) (fs.listdir (modelRootDir model_name))),
      ?_, List.perm_insertionSort keyGe _, List.sorted_insertionSort keyGe _, ?_⟩
    · unfold list_versions
      rw [if_pos hpe]
      simp only [hlde, hcol, hsort]
    · rw [(List.perm_insertionSort keyGe _).length_eq]
      exact hlen

/-- C9: `list_versions` tolerates only a *missing* metadata file.  If the
model root exists and some listed entry has a metadata file that is not
valid JSON, or parses to an object without a `created_at` key, the call
raises instead of skipping the entry or returning a partial result. -/
theorem list_versions_raises_on_bad_metadata (fs : FS)
    (model_name vid : String)
    (hdir : fs.isDir (modelRootDir model_name) = true)
    (hmem : vid ∈ fs.listdir (modelRootDir model_name))
    (hbad : (∃ bs, fs.lookupFile (modelRootDir model_name ++
              [vid, "metadata.json"]) = some (.bytes bs)) ∨
            (∃ m, fs.lookupFile (modelRootDir model_name ++
              [vid, "metadata.json"]) = some (.json m) ∧
              m.lookup "created_at" = none)) :
    ∃ e, list_versions fs model_name = .error e := by
  have hpe : fs.pathExists (modelRootDir model_name) = true := by
    simp [FS.pathExists, hdir]
  have hlde : fs.listdirE (modelRootDir model_name) =
      .ok (fs.listdir (modelRootDir model_name)) := by
    simp [FS.listdirE, hdir]
  rcases hbad with ⟨bs, hb⟩ | ⟨m, hj, hno⟩
  · obtain ⟨e, he⟩ := collectVersions_error_of_bytes fs _ _ vid bs hmem hb
    refine ⟨e, ?_⟩
    unfold list_versions
    rw [if_pos hpe]
    simp only [hlde, he]
  · cases hcol : collectVersions fs (modelRootDir model_name)
        (fs.listdir (modelRootDir model_name)) with
    | error e =>
      refine ⟨e, ?_⟩
      unfold list_versions
      rw [if_pos hpe]
      simp only [hlde, hcol]
    | ok vs =>
      have hmemvs : m ∈ vs :=
        collectVersions_mem fs _ _ vs vid m hcol hmem hj
      obtain ⟨e, he⟩ := sortVersions_error_of_missing vs m hmemvs hno
      refine ⟨e, ?_⟩
      unfold list_versions
      rw [if_pos hpe]
      simp only [hlde, hcol, he]

theorem rmtree_files (fs : FS) (p : Path) :
    (fs.rmtree p).files = fs.files.filter fun f => !(underPath p f.1) := rfl

/-- Every record of a successful `list_versions` call was loaded from the
metadata file of some listed entry of the model root. -/
theorem list_versions_ok_mem (fs : FS) (model_name : String)
    (l : List MetaObj) (m : MetaObj)
    (h : list_versions fs model_name = .ok l) (hm : m ∈ l) :
    ∃ vid ∈ fs.listdir (modelRootDir model_name),
      fs.lookupFile (modelRootDir model_name ++ [vid, "metadata.json"]) =
        some (.json m) := by
  unfold list_versions at h
  by_cases hpe : fs.pathExists (modelRootDir model_name)
  · rw [if_pos hpe] at h
    cases hld : fs.listdirE (modelRootDir model_name) with
    | error e =>
      simp only [hld] at h
      cases h
    | ok vids =>
      simp only [hld] at h
      obtain ⟨hdir, hvids⟩ := listdirE_ok_inv fs _ vids hld
      cases hcol : collectVersions fs (modelRootDir model_name) vids with
      | error e =>
        simp only [hcol] at h
        cases h
      | ok vs =>
        simp only [hcol] at h
        have hperm := sortVersions_ok_inv vs l h
        have hmvs : m ∈ vs := by
          rw [hperm] at hm
          exact (List.perm_insertionSort keyGe vs).mem_iff.mp hm
        obtain ⟨vid, hv1, hv2⟩ :=
          mem_of_collectVersions_ok fs _ vids vs m hcol hmvs
        subst hvids
        exact ⟨vid, hv1, hv2⟩
  · rw [if_neg hpe] at h
    injection h with h2
    subst h2
    cases hm

/-- C5: `delete_version` removes the whole version directory tree and
returns `true` when the directory is present, and returns `false` - not an
error - when nothing exists at the path; in either case a subsequent
`list_versions` returns no record carrying the deleted version id
(assuming each metadata file names its own directory, as `create_version`
writes it, and each file's parent directory exists, as on a real
filesystem). -/
theorem delete_version_spec (fs : FS) (model_name version_id : String)
    (hpar : ∀ f ∈ fs.files, f.1.dropLast ∈ fs.dirs)
    (hver : ∀ vid m, ((modelRootDir model_name ++ [vid, "metadata.json"]),
        FileData.json m) ∈ fs.files →
        m.lookup "version" = some (.mstr vid)) :
    (fs.isDir (versionDir model_name version_id) = true →
      (delete_version fs model_name version_id).2 = .ok true ∧
      (delete_version fs model_name version_id).1.filesUnder
        (versionDir model_name version_id) = []) ∧
    (fs.pathExists (versionDir model_name version_id) = false →
      delete_version fs model_name version_id = (fs, .ok false)) ∧
    (∀ l m, list_versions (delete_version fs model_name version_id).1
        model_name = .ok l → m ∈ l →
      m.lookup "version" ≠ some (.mstr version_id)) := by
  refine ⟨fun hdir => ⟨?_, ?_⟩, fun hmiss => ?_, fun l m hlist hm hcontra => ?_⟩
  · simp [delete_version, hdir]
  · have hfs' : (delete_version fs model_name version_id).1 =
        fs.rmtree (versionDir model_name version_id) := by
      simp [delete_version, hdir]
    rw [hfs']
    exact filesUnder_rmtree_self fs _
  · have hnd : fs.isDir (versionDir model_name version_id) = false := by
      rw [FS.pathExists, Bool.or_eq_false_iff] at hmiss
      exact hmiss.2
    have hnf : fs.isFile (versionDir model_name version_id) = false := by
      rw [FS.pathExists, Bool.or_eq_false_iff] at hmiss
      exact hmiss.1
    simp [delete_version, hnd, hnf]
  · by_cases hdir : fs.isDir (versionDir model_name version_id)
    · have hfs' : (delete_version fs model_name version_id).1 =
          fs.rmtree (versionDir model_name version_id) := by
        simp [delete_version, hdir]
      rw [hfs'] at hlist
      obtain ⟨vid, hvid, hl⟩ := list_versions_ok_mem _ _ l m hlist hm
      have hmemfile := mem_of_lookup_eq_some hl
      rw [rmtree_files, List.mem_filter] at hmemfile
      obtain ⟨hmemorig, hcond⟩ := hmemfile
      have hv := hver vid m hmemorig
      have : MetaVal.mstr vid = MetaVal.mstr version_id := by
        have := hv.symm.trans hcontra
        injection this
      injection this with h2
      subst h2
      have : underPath (versionDir model_name vid)
          (modelRootDir model_name ++ [vid, "metadata.json"]) = true := by
        simp [underPath, versionDir, modelRootDir]
      rw [this] at hcond
      cases hcond
    · have hfs' : (delete_version fs model_name version_id).1 = fs := by
        by_cases hf : fs.isFile (versionDir model_name version_id) <;>
          simp [delete_version, hdir, hf]
      rw [hfs'] at hlist
      obtain ⟨vid, hvid, hl⟩ := list_versions_ok_mem fs _ l m hlist hm
      have hmemfile := mem_of_lookup_eq_some hl
      have hv := hver vid m hmemfile
      have : MetaVal.mstr vid = MetaVal.mstr version_id := by
        have := hv.symm.trans hcontra
        injection this
      injection this with h2
      subst h2
      have hparent := hpar _ hmemfile
      have hdrop : (modelRootDir model_name ++
          [vid, "metadata.json"]).dropLast = versionDir model_name vid := by
        simp [modelRootDir, versionDir]
      rw [hdrop] at hparent
      have : fs.isDir (versionDir model_name vid) = true := by
        rw [FS.isDir]
        exact List.elem_eq_true_of_mem hparent
      exact absurd this (by simp [hdir])

/-! ## Frame lemmas for the version-directory invariant -/

theorem filter_under_filter_ne (l : List (Path × FileData)) (p q : Path)
    (h : underPath q p = false) :
    (l.filter fun f => !(f.1 == p)).filter (fun f => underPath q f.1) =
      l.filter fun f => underPath q f.1 := by
  induction l with
  | nil => rfl
  | cons x xs ih =>
    by_cases hx : x.1 = p
    · have h1 : (x.1 == p) = true := by simp [hx]
      have h2 : underPath q x.1 = false := by
        rw [hx]
        exact h
      simp [List.filter_cons, h1, h2, ih]
    · have h1 : (x.1 == p) = false := by simp [hx]
      by_cases hu : underPath q x.1 <;>
        simp [List.filter_cons, h1, hu, ih]

theorem filesUnder_writeFileRaw_of_not_under (fs : FS) (p q : Path) (d : FileData)
    (h : underPath q p = false) :
    (fs.writeFileRaw p d).filesUnder q = fs.filesUnder q := by
  show ((fs.files.filter fun f => !(f.1 == p)) ++ [(p, d)]).filter
      (fun f => underPath q f.1) = fs.files.filter fun f => underPath q f.1
  rw [List.filter_append, filter_under_filter_ne _ _ _ h]
  simp [h]

theorem filesUnder_mkdirsRaw (fs : FS) (p q : Path) :
    (fs.mkdirsRaw p).filesUnder q = fs.filesUnder q := rfl

theorem filter_under_disjoint (l : List (Path × FileData)) (p q : Path)
    (hlen : p.length = q.length) (hne : p ≠ q) :
    (l.filter fun f => !(underPath p f.1)).filter (fun f => underPath q f.1) =
      l.filter fun f => underPath q f.1 := by
  induction l with
  | nil => rfl
  | cons x xs ih =>
    by_cases hq : underPath q x.1 = true
    · have hp : underPath p x.1 = false := by
        cases hp : underPath p x.1 with
        | false => rfl
        | true =>
          exfalso
          rw [underPath] at hp hq
          rw [beq_iff_eq] at hp hq
          exact hne ((hlen ▸ hp : x.1.take q.length = p).symm.trans hq ▸ rfl)
      simp [List.filter_cons, hp, hq, ih]
    · have hq' : underPath q x.1 = false := by
        cases h2 : underPath q x.1 with
        | false => rfl
        | true => exact absurd h2 hq
      by_cases hp : underPath p x.1 <;>
        simp [List.filter_cons, hp, hq', ih]

theorem filesUnder_rmtree_of_ne (fs : FS) (p q : Path)
    (hlen : p.length = q.length) (hne : p ≠ q) :
    (fs.rmtree p).filesUnder q = fs.filesUnder q := by
  show (fs.files.filter fun f => !(underPath p f.1)).filter
      (fun f => underPath q f.1) = fs.files.filter fun f => underPath q f.1
  exact filter_under_disjoint fs.files p q hlen hne

theorem underPath_append (p q : Path) : underPath p (p ++ q) = true := by
  rw [underPath, List.take_left]
  simp

theorem underPath_append_singleton_ne (a b : Path) (x : String)
    (hlen : a.length = b.length) (hne : b ≠ a) :
    underPath a (b ++ [x]) = false := by
  rw [underPath]
  have ht : (b ++ [x]).take a.length = b := by
    rw [hlen]
    exact List.take_left b [x]
  rw [ht]
  simp [hne]

theorem rollback_state_cases (fs : FS) (n v : String) :
    (rollback_to_version fs n v).1 = fs ∨
    ∃ d, (rollback_to_version fs n v).1 =
      fs.writeFileRaw (activeModelPath n) d := by
  unfold rollback_to_version
  by_cases hpe : fs.pathExists (versionDir n v)
  · rw [if_pos hpe]
    cases hld : fs.listdirE (versionDir n v) with
    | error e =>
      left
      rfl
    | ok entries =>
      cases hflt : entries.filter (fun f => endsWithPkl f) with
      | nil =>
        simp only [hflt]
        left
        trivial
      | cons f rest =>
        simp only [hflt]
        cases hlf : fs.lookupFile (versionDir n v ++ [f]) with
        | some dd =>
          simp only [hlf]
          cases hw : fs.writeFile (activeModelPath n) dd with
          | error e =>
            simp only [hw]
            left
            trivial
          | ok fs2 =>
            simp only [hw]
            right
            exact ⟨dd, writeFile_ok_inv _ _ _ _ hw⟩
        | none =>
          simp only [hlf]
          left
          trivial
  · rw [if_neg hpe]
    left
    rfl

theorem delete_state_cases (fs : FS) (n v : String) :
    (delete_version fs n v).1 = fs ∨
    (delete_version fs n v).1 = fs.rmtree (versionDir n v) := by
  unfold delete_version
  by_cases hd : fs.isDir (versionDir n v)
  · right
    rw [if_pos hd]
  · left
    by_cases hf : fs.isFile (versionDir n v) <;> simp [hd, hf]

theorem filter_nil_of_filter_nil {l : List (Path × FileData)}
    {p q : (Path × FileData) → Bool} (h : l.filter p = []) :
    (l.filter q).filter p = [] := by
  rw [List.filter_eq_nil_iff] at h ⊢
  intro a ha
  exact h a (List.mem_of_mem_filter ha)

/-- The exact file listing of a freshly written version directory. -/
theorem filesUnder_create_shape (fs : FS) (vdir : Path) (bce mje : String)
    (d jm : FileData) (hfresh : fs.filesUnder vdir = [])
    (hne : (vdir ++ [bce] == vdir ++ [mje]) = false) :
    (((fs.mkdirsRaw vdir).writeFileRaw (vdir ++ [bce]) d).writeFileRaw
        (vdir ++ [mje]) jm).filesUnder vdir =
      [(vdir ++ [bce], d), (vdir ++ [mje], jm)] := by
  show (((fs.files.filter fun f => !(f.1 == vdir ++ [bce])) ++
      [(vdir ++ [bce], d)]).filter (fun f => !(f.1 == vdir ++ [mje])) ++
      [(vdir ++ [mje], jm)]).filter (fun f => underPath vdir f.1) = _
  rw [List.filter_append, List.filter_append, List.filter_append]
  rw [filter_nil_of_filter_nil (filter_nil_of_filter_nil hfresh)]
  rw [show List.filter (fun f => !(f.1 == vdir ++ [mje]))
      [(vdir ++ [bce], d)] = [(vdir ++ [bce], d)] from by simp [hne]]
  rw [show List.filter (fun f => underPath vdir f.1)
      [(vdir ++ [bce], d)] = [(vdir ++ [bce], d)] from by
    simp [underPath_append]]
  rw [show List.filter (fun f => underPath vdir f.1)
      [(vdir ++ [mje], jm)] = [(vdir ++ [mje], jm)] from by
    simp [underPath_append]]
  rfl

/-- C1 (amended): a successful `create_version` call whose generated
version directory held no files beforehand (no id collision) and whose
source artifact is not itself named `metadata.json` leaves that directory
with exactly two files - the copied artifact, byte-identical to the
source, and the metadata file whose `file_hash` equals the SHA-256 hex
digest of that content.  Later rollbacks (any arguments), deletions of any
other `(model, version)` pair, and later successful `create_version` calls
for a different `(model, version)` pair leave the directory's files
untouched; the listing and comparison operations do not write at all (they
return no state).  Deleting this version itself and a colliding later
`create_version` are the only operations that change it. -/
theorem create_version_fresh_directory (fs : FS) (tVer tMeta : DateTime)
    (model_name : String) (model_file : Path) (md : List (String × String))
    (fs' : FS) (v : String)
    (h : create_version fs tVer tMeta model_name model_file md = (fs', .ok v))
    (hfresh : fs.filesUnder (versionDir model_name v) = [])
    (hbase : model_file.getLastD "" ≠ "metadata.json") :
    ∃ d : FileData, fs.lookupFile model_file = some d ∧
      fs'.filesUnder (versionDir model_name v) =
        [(versionDir model_name v ++ [model_file.getLastD ""], d),
         (versionDir model_name v ++ ["metadata.json"],
           .json (writtenMeta v model_name tMeta md d))] ∧
      (writtenMeta v model_name tMeta md d).lookup "file_hash" =
        some (.mstr (sha256hex d.asBytes)) ∧
      (∀ n2 v2, (rollback_to_version fs' n2 v2).1.filesUnder
          (versionDir model_name v) = fs'.filesUnder (versionDir model_name v)) ∧
      (∀ n2 v2, versionDir n2 v2 ≠ versionDir model_name v →
        (delete_version fs' n2 v2).1.filesUnder (versionDir model_name v) =
          fs'.filesUnder (versionDir model_name v)) ∧
      (∀ t1 t2 n2 p2 md2 fs3 v3,
        create_version fs' t1 t2 n2 p2 md2 = (fs3, .ok v3) →
        versionDir n2 v3 ≠ versionDir model_name v →
        fs3.filesUnder (versionDir model_name v) =
          fs'.filesUnder (versionDir model_name v)) := by
  obtain ⟨d, hd, hv, hfs'⟩ :=
    create_version_ok_spec fs tVer tMeta model_name model_file md fs' v h
  have hcopy_ne : (versionDir model_name v ++ [model_file.getLastD ""] ==
      versionDir model_name v ++ ["metadata.json"]) = false := by
    rw [beq_eq_false_iff_ne]
    intro hc
    apply hbase
    have h2 := List.append_cancel_left hc
    injection h2
  refine ⟨d, hd, ?_, rfl, ?_, ?_, ?_⟩
  · rw [hfs']
    exact filesUnder_create_shape fs (versionDir model_name v)
      (model_file.getLastD "") "metadata.json" d
      (.json (writtenMeta v model_name tMeta md d)) hfresh hcopy_ne
  · intro n2 v2
    rcases rollback_state_cases fs' n2 v2 with heq | ⟨dd, heq⟩
    · rw [heq]
    · rw [heq]
      apply filesUnder_writeFileRaw_of_not_under
      simp [underPath, versionDir, activeModelPath]
  · intro n2 v2 hne
    rcases delete_state_cases fs' n2 v2 with heq | heq
    · rw [heq]
    · rw [heq]
      exact filesUnder_rmtree_of_ne fs' (versionDir n2 v2)
        (versionDir model_name v) rfl hne
  · intro t1 t2 n2 p2 md2 fs3 v3 hc hne
    obtain ⟨d2, hd2, hv3, hfs3⟩ :=
      create_version_ok_spec fs' t1 t2 n2 p2 md2 fs3 v3 hc
    rw [hfs3]
    rw [filesUnder_writeFileRaw_of_not_under _ _ _ _
      (underPath_append_singleton_ne (versionDir model_name v)
        (versionDir n2 v3) "metadata.json" (by rfl) hne)]
    rw [filesUnder_writeFileRaw_of_not_under _ _ _ _
      (underPath_append_singleton_ne (versionDir model_name v)
        (versionDir n2 v3) (p2.getLastD "") (by rfl) hne)]
    rfl

/-! ## Concrete stores used to evaluate the operations -/

/-- A concrete clock sample. -/
def tX : DateTime := ⟨2025, 6, 3, 19, 58, 50, 0⟩

/-- Two distinct artifact files with byte-identical content. -/
def fsColl : FS :=
  ⟨[(["models", "a.pkl"], .bytes [1, 2, 3]),
    (["models", "b.pkl"], .bytes [1, 2, 3])], [["models"]]⟩

/-- A store whose artifact file is itself named `metadata.json`. -/
def fsMetaNamed : FS :=
  ⟨[(["models", "metadata.json"], .bytes [7])], [["models"]]⟩

set_option maxRecDepth 1000000 in
/-- C1 is refuted on the code at two concrete inputs.  (i) After one
successful `create_version` the version directory holds the expected two
files; a second call in the same clock second with byte-identical content
but a different artifact basename succeeds with the *same* version id and
mutates that existing directory, which afterwards holds three files - so
both "exactly one copied artifact file and one metadata file" and "no
later operation mutates an existing version directory" fail.  (ii) A
single successful call whose source artifact is itself named
`metadata.json` produces a version directory holding one file, because the
metadata write overwrites the copied artifact. -/
theorem create_version_directory_counterexample :
    ((create_version fsColl tX tX "m" ["models", "a.pkl"] []).2 =
      .ok "v20250603_195850_039058c6" ∧
     ((create_version fsColl tX tX "m" ["models", "a.pkl"] []).1.filesUnder
        (versionDir "m" "v20250603_195850_039058c6")).length = 2 ∧
     (create_version (create_version fsColl tX tX "m" ["models", "a.pkl"] []).1
        tX tX "m" ["models", "b.pkl"] []).2 =
      .ok "v20250603_195850_039058c6" ∧
     ((create_version (create_version fsColl tX tX "m" ["models", "a.pkl"] []).1
        tX tX "m" ["models", "b.pkl"] []).1.filesUnder
        (versionDir "m" "v20250603_195850_039058c6")).length = 3) ∧
    ((create_version fsMetaNamed tX tX "m" ["models", "metadata.json"] []).2 =
      .ok "v20250603_195850_ca358758" ∧
     ((create_version fsMetaNamed tX tX "m"
        ["models", "metadata.json"] []).1.filesUnder
        (versionDir "m" "v20250603_195850_ca358758")).length = 1) :=
  ⟨⟨rfl, rfl, rfl, rfl⟩, rfl, rfl⟩

/-- Version id of the artifact `[1, 2, 3]` created at `tX`. -/
def vidW : String := "v20250603_195850_039058c6"

/-- An older version id with no artifact file in its directory. -/
def vidW2 : String := "v20250601_120000_aaaaaaaa"

/-- Metadata of version `vidW`, as `create_version` writes it. -/
def metaW : MetaObj :=
  [("version", .mstr vidW), ("model_name", .mstr "m"),
   ("created_at", .mstr "2025-06-03T19:58:50"), ("created_by", .mstr "asarekings"),
   ("metadata", .mdict []),
   ("file_hash", .mstr "039058c6f2c0cb492c533b0a4d14ef77cc0f78abccced5287d84a1a2011cfb81"),
   ("file_size_bytes", .mnat 3), ("platform", .mstr "Enhanced MLOps Platform")]

/-- Metadata of version `vidW2` (older `created_at`). -/
def metaW2 : MetaObj :=
  [("version", .mstr vidW2), ("model_name", .mstr "m"),
   ("created_at", .mstr "2025-06-01T12:00:00"), ("created_by", .mstr "asarekings"),
   ("metadata", .mdict []),
   ("file_hash", .mstr "ca358758f6d27e6cf45272937977a748fd88391db679ceda7dc7bf1f005ee879"),
   ("file_size_bytes", .mnat 1), ("platform", .mstr "Enhanced MLOps Platform")]

/-- A store with one loose artifact and two versions of model `m`: `vidW`
(artifact + metadata) and the older `vidW2` (metadata only). -/
def fsStore : FS :=
  ⟨[(["models", "a.pkl"], .bytes [1, 2, 3]),
    (["model_versions", "m", vidW, "a.pkl"], .bytes [1, 2, 3]),
    (["model_versions", "m", vidW, "metadata.json"], .json metaW),
    (["model_versions", "m", vidW2, "metadata.json"], .json metaW2)],
   [["models"], ["model_versions"], ["model_versions", "m"],
    ["model_versions", "m", vidW], ["model_versions", "m", vidW2]]⟩

/-- A store whose only version has a metadata file of raw (non-JSON)
bytes. -/
def fsBad : FS :=
  ⟨[(["model_versions", "m", "vbad", "metadata.json"], .bytes [123])],
   [["model_versions"], ["model_versions", "m"],
    ["model_versions", "m", "vbad"]]⟩

/-- A store where a regular file obstructs the version root for model
`m`: `model_versions/m` is a file, so `os.makedirs` cannot create the
version directory under it. -/
def fsObstructed : FS :=
  ⟨[(["models", "a.pkl"], .bytes [1, 2, 3]),
    (["model_versions", "m"], .bytes [0])],
   [["models"], ["model_versions"]]⟩

set_option maxRecDepth 1000000 in
/-- C2 is refuted on the code at a concrete input: the source artifact
`models/a.pkl` exists and is a readable regular file, yet
`create_version` does not succeed - a regular file sits at
`model_versions/m`, so `os.makedirs` raises `NotADirectoryError` and the
call fails with that outcome, leaving the store unchanged.  Existence and
readability of the source are therefore not sufficient for success. -/
theorem create_version_obstructed_counterexample :
    fsObstructed.lookupFile ["models", "a.pkl"] = some (.bytes [1, 2, 3]) ∧
    create_version fsObstructed tX tX "m" ["models", "a.pkl"] [] =
      (fsObstructed, .error .notADirectory) := by
  constructor
  · rfl
  · rfl

/-- A store with a complete version directory holding a `.pkl` artifact,
but no `models/` directory for the active artifact to be copied into. -/
def fsNoModels : FS :=
  ⟨[(["model_versions", "m", "v1", "x.pkl"], .bytes [1])],
   [["model_versions"], ["model_versions", "m"],
    ["model_versions", "m", "v1"]]⟩

/-- C3 is refuted on the code at a concrete input: the version directory
exists and contains a `.pkl` artifact file, yet `rollback_to_version`
does not copy it and succeed - the `models/` destination directory does
not exist, so `shutil.copy2` raises `FileNotFoundError` and the call
fails, leaving the store unchanged. -/
theorem rollback_missing_destination_counterexample :
    fsNoModels.isDir (versionDir "m" "v1") = true ∧
    fsNoModels.lookupFile (versionDir "m" "v1" ++ ["x.pkl"]) =
      some (.bytes [1]) ∧
    rollback_to_version fsNoModels "m" "v1" =
      (fsNoModels, .error .notFound) := by
  refine ⟨rfl, rfl, ?_⟩
  rfl

set_option maxRecDepth 1000000 in
/-- Witness for C2 at concrete stores. -/
theorem create_version_source_precondition_witness :
    create_version fsStore tX tX "m" ["models", "missing.pkl"] [] =
      (fsStore, .error .notFound) ∧
    ∃ fs' v, create_version fsStore tX tX "m" ["models", "a.pkl"] [] =
      (fs', .ok v) :=
  ⟨(create_version_source_precondition fsStore tX tX "m"
      ["models", "missing.pkl"] []).1 (by decide),
   (create_version_source_precondition fsStore tX tX "m"
      ["models", "a.pkl"] []).2 (.bytes [1, 2, 3]) (by decide) (by decide)
      (by decide) (by decide) (by decide)⟩

/-- Witness for C8 at a concrete store. -/
theorem rollback_missing_version_is_frame_witness :
    (rollback_to_version fsStore "m" "vnone").2 = .error .valueError ∧
    (rollback_to_version fsStore "m" "vnone").1.lookupFile
        (activeModelPath "m") = fsStore.lookupFile (activeModelPath "m") :=
  rollback_missing_version_is_frame fsStore "m" "vnone" (by decide)

set_option maxRecDepth 1000000 in
/-- Witness for C6 at a concrete store. -/
theorem version_id_format_witness :
    ∃ d : FileData, fsColl.lookupFile ["models", "a.pkl"] = some d ∧
      "v20250603_195850_039058c6" =
        "v" ++ tX.compact ++ "_" ++ (sha256hex d.asBytes).take 8 ∧
      compactShape tX.compact = true ∧
      ((sha256hex d.asBytes).take 8).length = 8 ∧
      ((sha256hex d.asBytes).take 8).data.all isLowerHexCh = true :=
  version_id_format fsColl tX tX "m" ["models", "a.pkl"] []
    (create_version fsColl tX tX "m" ["models", "a.pkl"] []).1
    "v20250603_195850_039058c6" (by rfl)

set_option maxRecDepth 1000000 in
/-- Witness for C10 at a concrete store. -/
theorem version_id_suffix_matches_stored_hash_witness :
    ∃ (m : MetaObj) (fh : String),
      (create_version fsColl tX tX "m" ["models", "a.pkl"] []).1.lookupFile
        (metadataPath "m" "v20250603_195850_039058c6") = some (.json m) ∧
      m.lookup "file_hash" = some (.mstr fh) ∧
      "v20250603_195850_039058c6" = "v" ++ tX.compact ++ "_" ++ fh.take 8 :=
  version_id_suffix_matches_stored_hash fsColl tX tX "m" ["models", "a.pkl"] []
    (create_version fsColl tX tX "m" ["models", "a.pkl"] []).1
    "v20250603_195850_039058c6" (by rfl)

/-- Witness for C7 at a concrete store. -/
theorem compare_version_with_itself_witness :
    get_version_comparison fsStore "m" vidW vidW =
      .ok (.found "m" true 0 false) :=
  compare_version_with_itself fsStore "m" vidW metaW (by decide)
    ⟨"2025-06-03T19:58:50", by decide⟩
    ⟨.mstr "039058c6f2c0cb492c533b0a4d14ef77cc0f78abccced5287d84a1a2011cfb81",
      by decide⟩
    (Or.inr ⟨3, by decide⟩)

/-- Witness for C3 at concrete stores: the three cases of rollback. -/
theorem rollback_version_cases_witness :
    rollback_to_version fsStore "m" "vnone2" = (fsStore, .error .valueError) ∧
    rollback_to_version fsStore "m" vidW2 = (fsStore, .ok false) ∧
    ∃ d, fsStore.lookupFile (versionDir "m" vidW ++ ["a.pkl"]) = some d ∧
      rollback_to_version fsStore "m" vidW =
        (fsStore.writeFileRaw (activeModelPath "m") d, .ok true) :=
  ⟨(rollback_version_cases fsStore "m" "vnone2").1 (by decide),
   ((rollback_version_cases fsStore "m" vidW2).2 (by decide) (by decide)).1
     (by decide),
   ((rollback_version_cases fsStore "m" vidW).2 (by decide) (by decide)).2
     "a.pkl" [] (by decide) (by decide) (by decide)⟩

/-- Witness for C4 at concrete stores. -/
theorem list_versions_spec_witness :
    list_versions fsStore "ghost" = .ok [] ∧
    ∃ l, list_versions fsStore "m" = .ok l ∧
      l.Perm (collectedRecords fsStore (modelRootDir "m")
        (fsStore.listdir (modelRootDir "m"))) ∧
      List.Sorted keyGe l ∧
      l.length = ((fsStore.listdir (modelRootDir "m")).filter fun vid =>
        fsStore.pathExists (modelRootDir "m" ++
          [vid, "metadata.json"])).length :=
  ⟨(list_versions_spec fsStore "ghost").1 (by decide),
   (list_versions_spec fsStore "m").2 (by decide) (by decide)⟩

/-- Witness for C9 at a concrete store. -/
theorem list_versions_raises_on_bad_metadata_witness :
    ∃ e, list_versions fsBad "m" = .error e :=
  list_versions_raises_on_bad_metadata fsBad "m" "vbad" (by decide) (by decide)
    (Or.inl ⟨[123], by decide⟩)

/-- Witness for C5 at concrete stores: deletion of a present and of an
absent version, and no surviving record with the deleted id. -/
theorem delete_version_spec_witness :
    ((delete_version fsStore "m" vidW).2 = .ok true ∧
     (delete_version fsStore "m" vidW).1.filesUnder
       (versionDir "m" vidW) = []) ∧
    delete_version fsStore "m" "vnone3" = (fsStore, .ok false) ∧
    metaW2.lookup "version" ≠ some (.mstr vidW) := by
  have hpar : ∀ f ∈ fsStore.files, f.1.dropLast ∈ fsStore.dirs := by decide
  have hver : ∀ vid m, ((modelRootDir "m" ++ [vid, "metadata.json"]),
      FileData.json m) ∈ fsStore.files →
      m.lookup "version" = some (.mstr vid) := by
    intro vid m hmem
    simp only [fsStore, List.mem_cons, List.not_mem_nil, or_false] at hmem
    rcases hmem with h | h | h | h
    · exfalso
      simp [modelRootDir, versionsRoot] at h
    · exfalso
      simp [modelRootDir, versionsRoot] at h
    · rw [Prod.mk.injEq] at h
      obtain ⟨hp, hm⟩ := h
      simp only [modelRootDir, versionsRoot, List.cons_append, List.nil_append,
        List.cons.injEq, and_true, true_and] at hp
      injection hm with hm2
      subst hm2
      subst hp
      decide
    · rw [Prod.mk.injEq] at h
      obtain ⟨hp, hm⟩ := h
      simp only [modelRootDir, versionsRoot, List.cons_append, List.nil_append,
        List.cons.injEq, and_true, true_and] at hp
      injection hm with hm2
      subst hm2
      subst hp
      decide
  exact ⟨(delete_version_spec fsStore "m" vidW hpar hver).1 (by decide),
    (delete_version_spec fsStore "m" "vnone3" hpar hver).2.1 (by decide),
    (delete_version_spec fsStore "m" vidW hpar hver).2.2 [metaW2] metaW2
      (by rfl) (by decide)⟩

set_option maxRecDepth 1000000 in
/-- Witness for the amended C1 at a concrete store. -/
theorem create_version_fresh_directory_witness :
    ∃ d : FileData, fsColl.lookupFile ["models", "b.pkl"] = some d ∧
      (create_version fsColl tX tX "m2" ["models", "b.pkl"] []).1.filesUnder
          (versionDir "m2" "v20250603_195850_039058c6") =
        [(versionDir "m2" "v20250603_195850_039058c6" ++
            [(["models", "b.pkl"] : Path).getLastD ""], d),
         (versionDir "m2" "v20250603_195850_039058c6" ++ ["metadata.json"],
           .json (writtenMeta "v20250603_195850_039058c6" "m2" tX [] d))] ∧
      (writtenMeta "v20250603_195850_039058c6" "m2" tX [] d).lookup
          "file_hash" = some (.mstr (sha256hex d.asBytes)) ∧
      (∀ n2 v2, (rollback_to_version
          (create_version fsColl tX tX "m2" ["models", "b.pkl"] []).1
          n2 v2).1.filesUnder (versionDir "m2" "v20250603_195850_039058c6") =
        (create_version fsColl tX tX "m2" ["models", "b.pkl"] []).1.filesUnder
          (versionDir "m2" "v20250603_195850_039058c6")) ∧
      (∀ n2 v2, versionDir n2 v2 ≠
          versionDir "m2" "v20250603_195850_039058c6" →
        (delete_version
          (create_version fsColl tX tX "m2" ["models", "b.pkl"] []).1
          n2 v2).1.filesUnder (versionDir "m2" "v20250603_195850_039058c6") =
        (create_version fsColl tX tX "m2" ["models", "b.pkl"] []).1.filesUnder
          (versionDir "m2" "v20250603_195850_039058c6")) ∧
      (∀ t1 t2 n2 p2 md2 fs3 v3,
        create_version
          (create_version fsColl tX tX "m2" ["models", "b.pkl"] []).1
          t1 t2 n2 p2 md2 = (fs3, .ok v3) →
        versionDir n2 v3 ≠ versionDir "m2" "v20250603_195850_039058c6" →
        fs3.filesUnder (versionDir "m2" "v20250603_195850_039058c6") =
        (create_version fsColl tX tX "m2" ["models", "b.pkl"] []).1.filesUnder
          (versionDir "m2" "v20250603_195850_039058c6")) :=
  create_version_fresh_directory fsColl tX tX "m2" ["models", "b.pkl"] []
    (create_version fsColl tX tX "m2" ["models", "b.pkl"] []).1
    "v20250603_195850_039058c6" (by rfl) (by decide) (by decide)

end MLOps
